import Mathlib

/-!
Verification of the GeMeCraP mass-difference path-search engine.

Shallow embedding of `network_construct_adduct.py`: the tolerance-indexed
reaction-difference lookup (`find_matches` lines 77-93 and 174-191), the
node-space construction (`load_data`), and the breadth-first path search
(`find_matches` lines 95-213).  Python floats are modelled as exact
rationals; Python dicts as association lists with insert-or-overwrite
semantics; Python sets as lists used only through membership; the
`while queue` loop as a fuel-indexed recursion (safety theorems quantify
over every fuel, so they cover the real run for the fuel large enough to
drain the queue); the uncaught `KeyError` of `ms_data[current_key]` as an
`Except.error` carrying the missing key.
-/

namespace GeMeCraP

/-- `diff_tolerance = 0.0065` from `find_matches`. -/
def diffTol : ℚ := 13 / 2000

/-- The tolerance interval of one `(ENTRY, diff_mass)` record:
`(diff_val - diff_tolerance, diff_val + diff_tolerance)`. -/
def bound (r : String × ℚ) : ℚ × ℚ := (r.2 - diffTol, r.2 + diffTol)

/-- `diff_mapping[key]`: the entry ids of all records whose tolerance
interval is exactly `b`, in record order (the Python loop appends
`diff_other_values[i]` to `diff_mapping[key]` for each record in order). -/
def diffMapping (records : List (String × ℚ)) (b : ℚ × ℚ) : List String :=
  (records.filter (fun r => bound r = b)).map Prod.fst

/-- First-occurrence deduplication (the Python loop appends `key` to
`sorted_bounds` only when `key not in diff_mapping`). -/
def firstDedupAux {α : Type} [DecidableEq α] (seen : List α) : List α → List α
  | [] => []
  | a :: l => if a ∈ seen then firstDedupAux seen l else a :: firstDedupAux (a :: seen) l

/-- The distinct tolerance intervals, in first-occurrence order. -/
def firstDedup {α : Type} [DecidableEq α] (l : List α) : List α :=
  firstDedupAux [] l

/-- `sorted_bounds.sort(key=lambda x: x[0])`: comparison by lower bound. -/
def relLower (a b : ℚ × ℚ) : Prop := a.1 ≤ b.1

instance : DecidableRel relLower := fun a b => inferInstanceAs (Decidable (a.1 ≤ b.1))

instance : IsTotal (ℚ × ℚ) relLower := ⟨fun a b => le_total a.1 b.1⟩

instance : IsTrans (ℚ × ℚ) relLower := ⟨fun _ _ _ h h' => le_trans h h'⟩

/-- `sorted_bounds` after the sort: the distinct intervals ordered by lower
bound. -/
def sortedBounds (records : List (String × ℚ)) : List (ℚ × ℚ) :=
  List.insertionSort relLower (firstDedup (records.map bound))

/-- `bisect.bisect_right(lower_bounds, diff_ms)`: on the sorted list of
lower bounds this is the insertion point, i.e. the number of entries
`≤ diff_ms`. -/
def bisectRight (l : List ℚ) (d : ℚ) : Nat :=
  l.countP (fun x => decide (x ≤ d))

/-- The leftward scan (`for j in range(pos-1, -1, -1)`): collect the entries
of every interval containing `d`, stopping after the first interval whose
lower bound falls below `d - 2*diff_tolerance` (that interval is still
tested before the break). `L` is the already-scanned-towards list, i.e. the
reversed prefix of `sorted_bounds` before the insertion point. -/
def scanLeft (mp : ℚ × ℚ → List String) (d : ℚ) : List (ℚ × ℚ) → List String
  | [] => []
  | b :: rest =>
    (if b.1 ≤ d ∧ d ≤ b.2 then mp b else []) ++
      (if b.1 < d - 2 * diffTol then [] else scanLeft mp d rest)

/-- The rightward scan (`for j in range(pos, len(sorted_bounds))`),
stopping after the first interval whose lower bound exceeds
`d + 2*diff_tolerance`. -/
def scanRight (mp : ℚ × ℚ → List String) (d : ℚ) : List (ℚ × ℚ) → List String
  | [] => []
  | b :: rest =>
    (if b.1 ≤ d ∧ d ≤ b.2 then mp b else []) ++
      (if d + 2 * diffTol < b.1 then [] else scanRight mp d rest)

/-- The full indexed lookup of `find_matches` (lines 174-190): bisect on the
lower bounds, scan leftward from `pos-1`, then rightward from `pos`,
collecting `diff_mapping` entries of every interval containing `d`. -/
def lookupDiff (records : List (String × ℚ)) (d : ℚ) : List String :=
  let sb := sortedBounds records
  let pos := bisectRight (sb.map Prod.fst) d
  scanLeft (diffMapping records) d ((sb.take pos).reverse) ++
    scanRight (diffMapping records) d (sb.drop pos)

/-- The brute-force linear scan the spec compares against: all entry ids
whose recorded `diff_mass` satisfies `|d - diff_mass| ≤ diff_tolerance`. -/
def bruteForceLookup (records : List (String × ℚ)) (d : ℚ) : List String :=
  (records.filter (fun r => |d - r.2| ≤ diffTol)).map Prod.fst

/-! Section: The node space (`load_data`) -/

/-- `s.split(c)[0]`: the prefix of `s` before the first occurrence of `c`
(the whole string when `c` does not occur). -/
def splitHead (c : Char) (s : String) : String :=
  (s.toList.takeWhile (fun x => x ≠ c)).asString

/-- `c in s` for a single character. -/
def containsChar (c : Char) (s : String) : Bool :=
  s.toList.contains c

/-- Base weight of a candidate key (`find_matches` line 102):
`k.split('+')[0].split('-')[0]`. -/
def candidateBase (k : String) : String :=
  splitHead '-' (splitHead '+' k)

/-- Base weight of the dequeued current key (`find_matches` lines 133-138):
split at `'+'` when present, else at `'-'` when present, else the key. -/
def currentBase (k : String) : String :=
  if containsChar '+' k then splitHead '+' k
  else if containsChar '-' k then splitHead '-' k
  else k

/-- Python `dict` assignment `m[k] = v`: overwrite in place when the key is
present, append otherwise (insertion order preserved). -/
def dictInsert (m : List (String × ℚ)) (k : String) (v : ℚ) : List (String × ℚ) :=
  if m.any (fun p => p.1 = k) then m.map (fun p => if p.1 = k then (k, v) else p)
  else m ++ [(k, v)]

/-- Python `dict` lookup `m[k]`, `none` modelling the `KeyError` case. -/
def lookupDict (m : List (String × ℚ)) (k : String) : Option ℚ :=
  (m.find? (fun p => p.1 = k)).map Prod.snd

/-- One adduct rule applied to one observed weight (`load_data` lines
33-52).  `adduct.1` is `label_with_sign` and `adduct.2` its mass;
`origStr` is the f-string form of the observed weight, `origW` its value.
If the first character of the label is `'+'` the adjusted weight is
`original_weight - mass` and the key `"{original_weight}+{ion}"`;
otherwise (the code's `else` branch, taken in particular for sign `'-'`)
the adjusted weight is `original_weight + mass` and the key
`"{original_weight}-{ion}"`, where `ion` is the label without its first
character. -/
def applyAdduct (origStr : String) (origW : ℚ) (adduct : String × ℚ) : String × ℚ :=
  let ion := (adduct.1.toList.drop 1).asString
  if adduct.1.toList.head? = some '+' then
    (origStr ++ "+" ++ ion, origW - adduct.2)
  else
    (origStr ++ "-" ++ ion, origW + adduct.2)

/-- `ms_data` as built by `load_data`: central weights under their string
form, then one entry per observed weight per adduct rule.  Each input
weight is given as its f-string form paired with its numeric value. -/
def loadMsData (central mz adducts : List (String × ℚ)) : List (String × ℚ) :=
  let base := central.foldl (fun m c => dictInsert m c.1 c.2) []
  mz.foldl
    (fun m o => adducts.foldl
      (fun m a =>
        let ka := applyAdduct o.1 o.2 a
        dictInsert m ka.1 ka.2) m)
    base

/-! Section: The search engine (`find_matches`) -/

/-- One step of a path: `{'source': ..., 'target': ..., 'diff': ...}`. -/
structure Step where
  source : String
  target : String
  diff : List String
deriving DecidableEq, Repr

/-- A result path: an ordered list of steps. -/
abbrev RPath := List Step

/-- One frontier entry
`(current_key, current_depth, path, used_nodes, used_molecules)`.
The Python sets are modelled as lists used only through membership. -/
structure SState where
  key : String
  depth : Nat
  path : RPath
  usedNodes : List String
  usedMols : List ℚ
deriving DecidableEq, Repr

/-- `is_same_molecule(weight1, weight2)`:
`abs(weight1 - weight2) / weight1 * 1e6 < 10`.  Note the divisor is the
FIRST argument, which at the call site is the candidate's weight. -/
def isSameMolecule (w1 w2 : ℚ) : Bool :=
  decide (|w1 - w2| / w1 * 1000000 < 10)

/-- The duplicate-molecule skip condition of the candidate loop (lines
164-171): some used molecule weight tests as the same molecule, with the
candidate weight `w` as the first argument of `is_same_molecule`. -/
def isDuplicate (usedM : List ℚ) (w : ℚ) : Bool :=
  usedM.any (fun m => isSameMolecule w m)

/-- The goal test (line 196): `abs(weight - end_weight) / weight * 1e6 < 20`. -/
def goalTest (endW w : ℚ) : Bool :=
  decide (|w - endW| / w * 1000000 < 20)

/-- Python `set.add` on a set modelled as a list. -/
def insertNew {α : Type} [DecidableEq α] (x : α) (l : List α) : List α :=
  if x ∈ l then l else x :: l

/-- The read-only context of one search run. -/
structure Cfg where
  endW : ℚ
  maxD : Nat
  nodes : List (String × ℚ)
  records : List (String × ℚ)
deriving Repr

/-- The body of the candidate loop (lines 159-201) for one candidate
`c = (key, weight)`, threading the accumulated `(queue, results)` pair:
skip on the duplicate-molecule test; look up the absolute mass difference;
when matches exist, either emit the extended path (goal test) or enqueue a
child state when `current_depth + 1 < max_depth`. -/
def processCandidate (cfg : Cfg) (curKey : String) (curW : ℚ) (depth : Nat)
    (path : RPath) (usedN : List String) (usedM : List ℚ)
    (acc : List SState × List RPath) (c : String × ℚ) :
    List SState × List RPath :=
  if isDuplicate usedM c.2 then acc
  else
    let ds := lookupDiff cfg.records |c.2 - curW|
    if ds.isEmpty then acc
    else
      let newPath := path ++ [⟨curKey, c.1, ds⟩]
      if goalTest cfg.endW c.2 then (acc.1, acc.2 ++ [newPath])
      else if depth + 1 < cfg.maxD then
        (acc.1 ++ [⟨c.1, depth + 1, newPath, usedN, usedM⟩], acc.2)
      else acc

/-- Processing of one dequeued state (lines 129-201): discard at the depth
bound; extend `used_nodes` with the current key's base weight; look up the
current weight (`ms_data[current_key]`, a fatal `KeyError` when absent,
modelled as `Except.error`); extend `used_molecules`; filter candidates by
base weight; fold the candidate loop over them. -/
def expandState (cfg : Cfg) (st : SState) (q : List SState) (r : List RPath) :
    Except String (List SState × List RPath) :=
  if cfg.maxD ≤ st.depth then Except.ok (q, r)
  else
    let usedN := insertNew (currentBase st.key) st.usedNodes
    match lookupDict cfg.nodes st.key with
    | none => Except.error st.key
    | some w =>
      let usedM := insertNew w st.usedMols
      let cands := cfg.nodes.filter (fun c => !(usedN.contains (candidateBase c.1)))
      Except.ok (cands.foldl (processCandidate cfg st.key w st.depth st.path usedN usedM) (q, r))

/-- The `while queue` loop, fuel-indexed.  Exhausted fuel returns the
results collected so far; every safety theorem below quantifies over the
fuel, and at a concrete input a fuel large enough to drain the queue
reproduces the program's complete run. -/
def searchLoop (cfg : Cfg) : Nat → List SState → List RPath → Except String (List RPath)
  | 0, _, r => Except.ok r
  | Nat.succ fuel, q, r =>
    match q with
    | [] => Except.ok r
    | st :: rest =>
      match expandState cfg st rest r with
      | Except.error e => Except.error e
      | Except.ok (q', r') => searchLoop cfg fuel q' r'

/-- `find_matches`: initial frontier
`(f"{start_weight}", 0, [], set(), set())`, empty results. -/
def findMatches (cfg : Cfg) (startKey : String) (fuel : Nat) :
    Except String (List RPath) :=
  searchLoop cfg fuel [⟨startKey, 0, [], [], []⟩] []

/-- The depths of the dequeued states, in dequeue order.  Mirrors
`searchLoop` exactly (the queue evolution of `expandState` does not depend
on the results accumulator); the trace stops where the loop stops (queue
empty, fuel exhausted, or the fatal `KeyError`). -/
def searchLoopTrace (cfg : Cfg) : Nat → List SState → List Nat
  | 0, _ => []
  | Nat.succ fuel, q =>
    match q with
    | [] => []
    | st :: rest =>
      st.depth ::
        (match expandState cfg st rest [] with
         | Except.error _ => []
         | Except.ok (q', _) => searchLoopTrace cfg fuel q')

/-- The dequeue-depth trace of a full run of `find_matches`. -/
def findMatchesTrace (cfg : Cfg) (startKey : String) (fuel : Nat) : List Nat :=
  searchLoopTrace cfg fuel [⟨startKey, 0, [], [], []⟩]

/-- A candidate survives the duplicate-molecule test and has at least one
matched reaction. -/
def admitB (cfg : Cfg) (curW : ℚ) (usedM : List ℚ) (c : String × ℚ) : Bool :=
  !(isDuplicate usedM c.2) && !((lookupDiff cfg.records |c.2 - curW|).isEmpty)

/-- The step built for a matched candidate. -/
def stepFor (cfg : Cfg) (curKey : String) (curW : ℚ) (c : String × ℚ) : Step :=
  ⟨curKey, c.1, lookupDiff cfg.records |c.2 - curW|⟩

/-- The child states enqueued by the candidate loop, in candidate order. -/
def kidsOf (cfg : Cfg) (curKey : String) (curW : ℚ) (depth : Nat) (path : RPath)
    (usedN : List String) (usedM : List ℚ) (cands : List (String × ℚ)) : List SState :=
  (cands.filter (fun c =>
      admitB cfg curW usedM c && !(goalTest cfg.endW c.2) && decide (depth + 1 < cfg.maxD))).map
    (fun c => ⟨c.1, depth + 1, path ++ [stepFor cfg curKey curW c], usedN, usedM⟩)

/-- The result paths emitted by the candidate loop, in candidate order. -/
def emitsOf (cfg : Cfg) (curKey : String) (curW : ℚ) (_depth : Nat) (path : RPath)
    (usedM : List ℚ) (cands : List (String × ℚ)) : List RPath :=
  (cands.filter (fun c => admitB cfg curW usedM c && goalTest cfg.endW c.2)).map
    (fun c => path ++ [stepFor cfg curKey curW c])

/-- `used_nodes` after lines 141-142. -/
def postUsedN (st : SState) : List String :=
  insertNew (currentBase st.key) st.usedNodes

/-- `used_molecules` after lines 146-147, given the current weight. -/
def postUsedM (w : ℚ) (st : SState) : List ℚ :=
  insertNew w st.usedMols

/-- The candidate list of one expansion (lines 150-155): the nodes whose
candidate base weight is not among the used base weights. -/
def candsOf (cfg : Cfg) (st : SState) : List (String × ℚ) :=
  cfg.nodes.filter (fun c => !((postUsedN st).contains (candidateBase c.1)))

/-- The children of one expansion. -/
def stKids (cfg : Cfg) (st : SState) (w : ℚ) : List SState :=
  kidsOf cfg st.key w st.depth st.path (postUsedN st) (postUsedM w st) (candsOf cfg st)

/-- The emitted paths of one expansion. -/
def stEmits (cfg : Cfg) (st : SState) (w : ℚ) : List RPath :=
  emitsOf cfg st.key w st.depth st.path (postUsedM w st) (candsOf cfg st)

/-- The node keys visited along a path: the start key followed by every
step's target. -/
def keyChain (startKey : String) (p : RPath) : List String :=
  startKey :: p.map Step.target

/-- Decidable equality of run outcomes, for concrete evaluations. -/
instance {e a : Type} [DecidableEq e] [DecidableEq a] : DecidableEq (Except e a) := fun x y =>
  match x, y with
  | Except.ok v, Except.ok w =>
    if h : v = w then Decidable.isTrue (by rw [h])
    else Decidable.isFalse (fun hc => h (Except.ok.inj hc))
  | Except.error v, Except.error w =>
    if h : v = w then Decidable.isTrue (by rw [h])
    else Decidable.isFalse (fun hc => h (Except.error.inj hc))
  | Except.ok _, Except.error _ => Decidable.isFalse (fun hc => Except.noConfusion hc)
  | Except.error _, Except.ok _ => Decidable.isFalse (fun hc => Except.noConfusion hc)

/-! Section: Lemmas about the tolerance index -/

lemma mem_firstDedupAux {α : Type} [DecidableEq α] (x : α) :
    ∀ (l seen : List α), x ∈ firstDedupAux seen l ↔ x ∈ l ∧ x ∉ seen := by
  intro l
  induction l with
  | nil => intro seen; simp [firstDedupAux]
  | cons a t ih =>
    intro seen
    by_cases ha : a ∈ seen
    · rw [firstDedupAux, if_pos ha, ih]
      constructor
      · rintro ⟨hxt, hxs⟩; exact ⟨List.mem_cons_of_mem _ hxt, hxs⟩
      · rintro ⟨hx, hxs⟩
        rcases List.mem_cons.mp hx with rfl | hxt
        · exact absurd ha hxs
        · exact ⟨hxt, hxs⟩
    · rw [firstDedupAux, if_neg ha]
      constructor
      · intro hx
        rcases List.mem_cons.mp hx with rfl | hxt
        · exact ⟨List.mem_cons_self _ _, ha⟩
        · rcases (ih _).mp hxt with ⟨h1, h2⟩
          refine ⟨List.mem_cons_of_mem _ h1, fun hc => h2 (List.mem_cons_of_mem _ hc)⟩
      · rintro ⟨hx, hxs⟩
        rcases List.mem_cons.mp hx with rfl | hxt
        · exact List.mem_cons_self _ _
        · by_cases hxa : x = a
          · subst hxa; exact List.mem_cons_self _ _
          · exact List.mem_cons_of_mem _ ((ih _).mpr
              ⟨hxt, fun hc => (List.mem_cons.mp hc).elim hxa hxs⟩)

lemma mem_firstDedup {α : Type} [DecidableEq α] (x : α) (l : List α) :
    x ∈ firstDedup l ↔ x ∈ l := by
  rw [firstDedup, mem_firstDedupAux]; simp

lemma mem_sortedBounds (records : List (String × ℚ)) (b : ℚ × ℚ) :
    b ∈ sortedBounds records ↔ ∃ r ∈ records, bound r = b := by
  rw [sortedBounds, (List.perm_insertionSort relLower _).mem_iff, mem_firstDedup]
  simp [eq_comm]

lemma sortedBounds_sorted (records : List (String × ℚ)) :
    List.Sorted relLower (sortedBounds records) :=
  List.sorted_insertionSort relLower _

lemma sortedBounds_width (records : List (String × ℚ)) (b : ℚ × ℚ)
    (hb : b ∈ sortedBounds records) : b.2 = b.1 + 2 * diffTol := by
  rcases (mem_sortedBounds records b).mp hb with ⟨r, _, rfl⟩
  simp [bound]; ring

lemma mem_diffMapping (records : List (String × ℚ)) (b : ℚ × ℚ) (x : String) :
    x ∈ diffMapping records b ↔ ∃ v, (x, v) ∈ records ∧ bound (x, v) = b := by
  rw [diffMapping]
  constructor
  · intro hx
    rcases List.mem_map.mp hx with ⟨r, hr, rfl⟩
    rcases List.mem_filter.mp hr with ⟨hmem, hcond⟩
    exact ⟨r.2, by simpa using hmem, by simpa using of_decide_eq_true hcond⟩
  · rintro ⟨v, hmem, hcond⟩
    exact List.mem_map.mpr ⟨(x, v), List.mem_filter.mpr ⟨hmem, decide_eq_true hcond⟩, rfl⟩

lemma bisectRight_map (sb : List (ℚ × ℚ)) (d : ℚ) :
    bisectRight (sb.map Prod.fst) d = sb.countP (fun b => decide (b.1 ≤ d)) := by
  rw [bisectRight, List.countP_map]
  rfl

lemma mem_take_bisect {d : ℚ} :
    ∀ (sb : List (ℚ × ℚ)), List.Sorted relLower sb →
      ∀ b ∈ sb.take (sb.countP (fun b => decide (b.1 ≤ d))), b.1 ≤ d := by
  intro sb
  induction sb with
  | nil => simp
  | cons c t ih =>
    intro hs b hb
    rcases List.sorted_cons.mp hs with ⟨hct, ht⟩
    by_cases hc : c.1 ≤ d
    · rw [List.countP_cons, if_pos (decide_eq_true hc), List.take_succ_cons] at hb
      rcases List.mem_cons.mp hb with rfl | hb'
      · exact hc
      · exact ih ht b hb'
    · have hz : t.countP (fun b => decide (b.1 ≤ d)) = 0 := by
        rw [List.countP_eq_zero]
        intro a ha hcon
        exact hc (le_trans (hct a ha) (of_decide_eq_true hcon))
      rw [List.countP_cons, if_neg (by simpa using hc), hz] at hb
      simp at hb

lemma mem_drop_bisect {d : ℚ} :
    ∀ (sb : List (ℚ × ℚ)), List.Sorted relLower sb →
      ∀ b ∈ sb.drop (sb.countP (fun b => decide (b.1 ≤ d))), d < b.1 := by
  intro sb
  induction sb with
  | nil => simp
  | cons c t ih =>
    intro hs b hb
    rcases List.sorted_cons.mp hs with ⟨hct, ht⟩
    by_cases hc : c.1 ≤ d
    · rw [List.countP_cons, if_pos (decide_eq_true hc), List.drop_succ_cons] at hb
      exact ih ht b hb
    · have hz : t.countP (fun b => decide (b.1 ≤ d)) = 0 := by
        rw [List.countP_eq_zero]
        intro a ha hcon
        exact hc (le_trans (hct a ha) (of_decide_eq_true hcon))
      rw [List.countP_cons, if_neg (by simpa using hc), hz] at hb
      rcases List.mem_cons.mp hb with rfl | hb'
      · exact lt_of_not_le hc
      · exact lt_of_lt_of_le (lt_of_not_le hc) (hct b hb')

lemma diffTol_pos : (0 : ℚ) < diffTol := by norm_num [diffTol]

lemma mem_scanLeft (mp : ℚ × ℚ → List String) (d : ℚ) (x : String) :
    ∀ (L : List (ℚ × ℚ)), (∀ b ∈ L, b.2 = b.1 + 2 * diffTol) →
      List.Pairwise (fun a b => b.1 ≤ a.1) L →
      (x ∈ scanLeft mp d L ↔ ∃ b ∈ L, (b.1 ≤ d ∧ d ≤ b.2) ∧ x ∈ mp b) := by
  intro L
  induction L with
  | nil => simp [scanLeft]
  | cons b rest ih =>
    intro hw hp
    rcases List.pairwise_cons.mp hp with ⟨hbr, hrest⟩
    have hwb := hw b (List.mem_cons_self _ _)
    by_cases hbrk : b.1 < d - 2 * diffTol
    · have hnb : ¬(b.1 ≤ d ∧ d ≤ b.2) := by
        rintro ⟨_, h2⟩
        rw [hwb] at h2
        linarith
      rw [scanLeft, if_neg hnb, if_pos hbrk]
      simp only [List.nil_append, List.not_mem_nil, false_iff]
      rintro ⟨c, hc, hcond, _⟩
      rcases List.mem_cons.mp hc with rfl | hcr
      · exact hnb hcond
      · have h1 : c.1 ≤ b.1 := hbr c hcr
        have h2 := hw c (List.mem_cons_of_mem _ hcr)
        rw [h2] at hcond
        rcases hcond with ⟨_, hcond2⟩
        linarith
    · rw [scanLeft, if_neg hbrk]
      rw [List.mem_append, ih (fun c hc => hw c (List.mem_cons_of_mem _ hc)) hrest]
      by_cases hmem : b.1 ≤ d ∧ d ≤ b.2
      · rw [if_pos hmem]
        constructor
        · rintro (hx | ⟨c, hc, hcond, hxc⟩)
          · exact ⟨b, List.mem_cons_self _ _, hmem, hx⟩
          · exact ⟨c, List.mem_cons_of_mem _ hc, hcond, hxc⟩
        · rintro ⟨c, hc, hcond, hxc⟩
          rcases List.mem_cons.mp hc with rfl | hcr
          · exact Or.inl hxc
          · exact Or.inr ⟨c, hcr, hcond, hxc⟩
      · rw [if_neg hmem]
        simp only [List.not_mem_nil, false_or]
        constructor
        · rintro ⟨c, hc, hcond, hxc⟩
          exact ⟨c, List.mem_cons_of_mem _ hc, hcond, hxc⟩
        · rintro ⟨c, hc, hcond, hxc⟩
          rcases List.mem_cons.mp hc with rfl | hcr
          · exact absurd hcond hmem
          · exact ⟨c, hcr, hcond, hxc⟩

lemma mem_scanRight (mp : ℚ × ℚ → List String) (d : ℚ) (x : String) :
    ∀ (L : List (ℚ × ℚ)), List.Pairwise (fun a b => a.1 ≤ b.1) L →
      (x ∈ scanRight mp d L ↔ ∃ b ∈ L, (b.1 ≤ d ∧ d ≤ b.2) ∧ x ∈ mp b) := by
  intro L
  induction L with
  | nil => simp [scanRight]
  | cons b rest ih =>
    intro hp
    rcases List.pairwise_cons.mp hp with ⟨hbr, hrest⟩
    by_cases hbrk : d + 2 * diffTol < b.1
    · have hnb : ¬(b.1 ≤ d ∧ d ≤ b.2) := by
        rintro ⟨h1, _⟩
        have := diffTol_pos
        linarith
      rw [scanRight, if_neg hnb, if_pos hbrk]
      simp only [List.nil_append, List.not_mem_nil, false_iff]
      rintro ⟨c, hc, hcond, _⟩
      rcases List.mem_cons.mp hc with rfl | hcr
      · exact hnb hcond
      · have h1 : b.1 ≤ c.1 := hbr c hcr
        have := diffTol_pos
        rcases hcond with ⟨hcond1, _⟩
        linarith
    · rw [scanRight, if_neg hbrk]
      rw [List.mem_append, ih hrest]
      by_cases hmem : b.1 ≤ d ∧ d ≤ b.2
      · rw [if_pos hmem]
        constructor
        · rintro (hx | ⟨c, hc, hcond, hxc⟩)
          · exact ⟨b, List.mem_cons_self _ _, hmem, hx⟩
          · exact ⟨c, List.mem_cons_of_mem _ hc, hcond, hxc⟩
        · rintro ⟨c, hc, hcond, hxc⟩
          rcases List.mem_cons.mp hc with rfl | hcr
          · exact Or.inl hxc
          · exact Or.inr ⟨c, hcr, hcond, hxc⟩
      · rw [if_neg hmem]
        simp only [List.not_mem_nil, false_or]
        constructor
        · rintro ⟨c, hc, hcond, hxc⟩
          exact ⟨c, List.mem_cons_of_mem _ hc, hcond, hxc⟩
        · rintro ⟨c, hc, hcond, hxc⟩
          rcases List.mem_cons.mp hc with rfl | hcr
          · exact absurd hcond hmem
          · exact ⟨c, hcr, hcond, hxc⟩

lemma mem_lookupDiff_bound (records : List (String × ℚ)) (d : ℚ) (x : String) :
    x ∈ lookupDiff records d ↔
      ∃ b ∈ sortedBounds records, (b.1 ≤ d ∧ d ≤ b.2) ∧ x ∈ diffMapping records b := by
  have hsorted := sortedBounds_sorted records
  have hwidth := sortedBounds_width records
  set sb := sortedBounds records with hsb
  set pos := bisectRight (sb.map Prod.fst) d with hpos
  have hposc : pos = sb.countP (fun b => decide (b.1 ≤ d)) := bisectRight_map sb d
  have htakeS : List.Sorted relLower (sb.take pos) :=
    List.Pairwise.sublist (List.take_sublist _ _) hsorted
  have hdropS : List.Sorted relLower (sb.drop pos) :=
    List.Pairwise.sublist (List.drop_sublist _ _) hsorted
  rw [lookupDiff, List.mem_append]
  rw [mem_scanLeft (diffMapping records) d x _
      (fun b hb => hwidth b (List.take_subset _ _ (List.mem_reverse.mp hb)))
      (List.pairwise_reverse.mpr htakeS)]
  rw [mem_scanRight (diffMapping records) d x _ hdropS]
  constructor
  · rintro (⟨b, hb, hcond, hxb⟩ | ⟨b, hb, hcond, hxb⟩)
    · exact ⟨b, List.take_subset _ _ (List.mem_reverse.mp hb), hcond, hxb⟩
    · exact ⟨b, List.drop_subset _ _ hb, hcond, hxb⟩
  · rintro ⟨b, hb, hcond, hxb⟩
    have hsplit : b ∈ sb.take pos ++ sb.drop pos := by
      rw [List.take_append_drop]; exact hb
    rcases List.mem_append.mp hsplit with hbt | hbd
    · exact Or.inl ⟨b, List.mem_reverse.mpr hbt, hcond, hxb⟩
    · exact absurd hcond.1 (not_le_of_lt (by
        have := mem_drop_bisect sb hsorted b (by rw [← hposc]; exact hbd)
        exact this))

/-- C1. Interval lookup correctness: for every record list and every
queried difference, the bisect-and-scan lookup of `find_matches` returns
exactly the entry ids whose recorded `diff_mass` satisfies
`|d - diff_mass| ≤ diff_tolerance`, i.e. it agrees with the brute-force
linear scan as a set (membership is equivalent). -/
theorem lookupDiff_eq_bruteforce (records : List (String × ℚ)) (d : ℚ) (x : String) :
    x ∈ lookupDiff records d ↔ x ∈ bruteForceLookup records d := by
  rw [mem_lookupDiff_bound]
  constructor
  · rintro ⟨b, hb, hcond, hxb⟩
    rcases (mem_diffMapping records b x).mp hxb with ⟨v, hmem, hbv⟩
    refine List.mem_map.mpr ⟨(x, v), List.mem_filter.mpr ⟨hmem, decide_eq_true ?_⟩, rfl⟩
    subst hbv
    rcases hcond with ⟨h1, h2⟩
    simp only [bound] at h1 h2
    rw [abs_sub_le_iff]
    exact ⟨by linarith, by linarith⟩
  · intro hx
    rcases List.mem_map.mp hx with ⟨r, hr, rfl⟩
    rcases List.mem_filter.mp hr with ⟨hmem, hcond⟩
    have habs := of_decide_eq_true hcond
    rw [abs_sub_le_iff] at habs
    refine ⟨bound r, (mem_sortedBounds records _).mpr ⟨r, hmem, rfl⟩, ⟨?_, ?_⟩, ?_⟩
    · simp [bound]; linarith [habs.2]
    · simp [bound]; linarith [habs.1]
    · exact (mem_diffMapping records _ _).mpr ⟨r.2, by simpa using hmem, rfl⟩

/-! Section: Closed form of one state expansion -/

lemma foldl_processCandidate (cfg : Cfg) (curKey : String) (curW : ℚ) (depth : Nat)
    (path : RPath) (usedN : List String) (usedM : List ℚ) :
    ∀ (cands : List (String × ℚ)) (acc : List SState × List RPath),
      cands.foldl (processCandidate cfg curKey curW depth path usedN usedM) acc =
        (acc.1 ++ kidsOf cfg curKey curW depth path usedN usedM cands,
         acc.2 ++ emitsOf cfg curKey curW depth path usedM cands) := by
  intro cands
  induction cands with
  | nil => intro acc; simp [kidsOf, emitsOf]
  | cons c t ih =>
    intro acc
    rw [List.foldl_cons, ih]
    by_cases hdup : isDuplicate usedM c.2
    · have hadm : admitB cfg curW usedM c = false := by
        simp [admitB, hdup]
      simp [processCandidate, hdup, kidsOf, emitsOf, List.filter_cons, hadm]
    · by_cases hds : (lookupDiff cfg.records |c.2 - curW|).isEmpty
      · have hadm : admitB cfg curW usedM c = false := by
          simp [admitB, hdup, hds]
        simp [processCandidate, hdup, hds, kidsOf, emitsOf, List.filter_cons, hadm]
      · have hadm : admitB cfg curW usedM c = true := by
          simp [admitB, hdup, hds]
        by_cases hgoal : goalTest cfg.endW c.2
        · simp [processCandidate, hdup, hds, hgoal, kidsOf, emitsOf, List.filter_cons,
            hadm, stepFor]
        · by_cases hdep : depth + 1 < cfg.maxD
          · simp [processCandidate, hdup, hds, hgoal, hdep, kidsOf, emitsOf,
              List.filter_cons, hadm, stepFor]
          · simp [processCandidate, hdup, hds, hgoal, hdep, kidsOf, emitsOf,
              List.filter_cons, hadm, stepFor]

lemma expandState_depth_ge (cfg : Cfg) (st : SState) (q : List SState) (r : List RPath)
    (h : cfg.maxD ≤ st.depth) : expandState cfg st q r = Except.ok (q, r) := by
  simp [expandState, h]

lemma expandState_keyError (cfg : Cfg) (st : SState) (q : List SState) (r : List RPath)
    (h : st.depth < cfg.maxD) (hke : lookupDict cfg.nodes st.key = none) :
    expandState cfg st q r = Except.error st.key := by
  simp [expandState, not_le_of_lt h, hke]

lemma expandState_found (cfg : Cfg) (st : SState) (q : List SState) (r : List RPath)
    (w : ℚ) (h : st.depth < cfg.maxD) (hw : lookupDict cfg.nodes st.key = some w) :
    expandState cfg st q r = Except.ok (q ++ stKids cfg st w, r ++ stEmits cfg st w) := by
  rw [expandState, if_neg (not_le_of_lt h), hw]
  simp only [stKids, stEmits, candsOf, postUsedN, postUsedM]
  rw [foldl_processCandidate]

lemma mem_stKids (cfg : Cfg) (st : SState) (w : ℚ) (s : SState) :
    s ∈ stKids cfg st w ↔
      ∃ c ∈ candsOf cfg st, admitB cfg w (postUsedM w st) c = true ∧
        goalTest cfg.endW c.2 = false ∧ st.depth + 1 < cfg.maxD ∧
        s = ⟨c.1, st.depth + 1, st.path ++ [stepFor cfg st.key w c],
             postUsedN st, postUsedM w st⟩ := by
  simp only [stKids, kidsOf, List.mem_map, List.mem_filter, Bool.and_eq_true,
    Bool.not_eq_true', decide_eq_true_eq]
  tauto

lemma mem_stEmits (cfg : Cfg) (st : SState) (w : ℚ) (p : RPath) :
    p ∈ stEmits cfg st w ↔
      ∃ c ∈ candsOf cfg st, admitB cfg w (postUsedM w st) c = true ∧
        goalTest cfg.endW c.2 = true ∧
        p = st.path ++ [stepFor cfg st.key w c] := by
  simp only [stEmits, emitsOf, List.mem_map, List.mem_filter, Bool.and_eq_true]
  constructor
  · rintro ⟨c, ⟨hc, ha, hg⟩, rfl⟩
    exact ⟨c, hc, ha, hg, rfl⟩
  · rintro ⟨c, hc, ha, hg, rfl⟩
    exact ⟨c, ⟨hc, ha, hg⟩, rfl⟩

/-! Section: The generic loop invariant -/

/-- Invariant propagation through `searchLoop`: when every child and every
emitted path of any expansion of an invariant-satisfying state again
satisfies the invariants, every result of a completed (`ok`) loop run
starting from an invariant-satisfying queue and result list satisfies the
result invariant. -/
lemma searchLoop_inv (cfg : Cfg) (QI : SState → Prop) (RI : RPath → Prop)
    (hstep : ∀ st w, QI st → st.depth < cfg.maxD →
      lookupDict cfg.nodes st.key = some w →
      (∀ s ∈ stKids cfg st w, QI s) ∧ (∀ p ∈ stEmits cfg st w, RI p)) :
    ∀ (fuel : Nat) (q : List SState) (r : List RPath) (rs : List RPath),
      (∀ s ∈ q, QI s) → (∀ p ∈ r, RI p) →
      searchLoop cfg fuel q r = Except.ok rs → ∀ p ∈ rs, RI p := by
  intro fuel
  induction fuel with
  | zero =>
    intro q r rs _ hr hrun
    simp only [searchLoop, Except.ok.injEq] at hrun
    subst hrun; exact hr
  | succ fuel ih =>
    intro q r rs hq hr hrun
    match q with
    | [] =>
      simp only [searchLoop, Except.ok.injEq] at hrun
      subst hrun; exact hr
    | st :: rest =>
      by_cases hdep : cfg.maxD ≤ st.depth
      · rw [searchLoop, expandState_depth_ge cfg st rest r hdep] at hrun
        exact ih rest r rs (fun s hs => hq s (List.mem_cons_of_mem _ hs)) hr hrun
      · have hdep' : st.depth < cfg.maxD := lt_of_not_le hdep
        cases hlk : lookupDict cfg.nodes st.key with
        | none =>
          rw [searchLoop, expandState_keyError cfg st rest r hdep' hlk] at hrun
          exact absurd hrun (by simp)
        | some w =>
          rw [searchLoop, expandState_found cfg st rest r w hdep' hlk] at hrun
          have hQst := hq st (List.mem_cons_self _ _)
          rcases hstep st w hQst hdep' hlk with ⟨hkids, hemits⟩
          refine ih _ _ rs ?_ ?_ hrun
          · intro s hs
            rcases List.mem_append.mp hs with hs | hs
            · exact hq s (List.mem_cons_of_mem _ hs)
            · exact hkids s hs
          · intro p hp
            rcases List.mem_append.mp hp with hp | hp
            · exact hr p hp
            · exact hemits p hp

/-! Section: Step equations for the loop -/

lemma searchLoop_zero (cfg : Cfg) (q : List SState) (r : List RPath) :
    searchLoop cfg 0 q r = Except.ok r := rfl

lemma searchLoop_nil (cfg : Cfg) (n : Nat) (r : List RPath) :
    searchLoop cfg (n + 1) [] r = Except.ok r := rfl

lemma searchLoop_cons_discard (cfg : Cfg) (n : Nat) (st : SState) (rest : List SState)
    (r : List RPath) (h : cfg.maxD ≤ st.depth) :
    searchLoop cfg (n + 1) (st :: rest) r = searchLoop cfg n rest r := by
  rw [searchLoop, expandState_depth_ge cfg st rest r h]

lemma searchLoop_cons_error (cfg : Cfg) (n : Nat) (st : SState) (rest : List SState)
    (r : List RPath) (h : st.depth < cfg.maxD)
    (hk : lookupDict cfg.nodes st.key = none) :
    searchLoop cfg (n + 1) (st :: rest) r = Except.error st.key := by
  rw [searchLoop, expandState_keyError cfg st rest r h hk]

lemma searchLoop_cons_found (cfg : Cfg) (n : Nat) (st : SState) (rest : List SState)
    (r : List RPath) (w : ℚ) (h : st.depth < cfg.maxD)
    (hw : lookupDict cfg.nodes st.key = some w) :
    searchLoop cfg (n + 1) (st :: rest) r =
      searchLoop cfg n (rest ++ stKids cfg st w) (r ++ stEmits cfg st w) := by
  rw [searchLoop, expandState_found cfg st rest r w h hw]

lemma lookupDict_cons_self (p : String × ℚ) (t : List (String × ℚ)) :
    lookupDict (p :: t) p.1 = some p.2 := by
  simp [lookupDict, List.find?]

lemma lookupDict_cons_ne (p : String × ℚ) (t : List (String × ℚ)) (k : String)
    (h : ¬(p.1 = k)) : lookupDict (p :: t) k = lookupDict t k := by
  rw [lookupDict, List.find?, show (decide (p.1 = k)) = false from decide_eq_false h]
  rfl

/-! Section: Small helpers -/

lemma pairwise_of_mem {α : Type} {R : α → α → Prop} :
    ∀ (l : List α), (∀ a ∈ l, ∀ b ∈ l, R a b) → List.Pairwise R l := by
  intro l
  induction l with
  | nil => intro _; exact List.Pairwise.nil
  | cons a t ih =>
    intro h
    exact List.Pairwise.cons
      (fun b hb => h a (List.mem_cons_self _ _) b (List.mem_cons_of_mem _ hb))
      (ih fun x hx y hy => h x (List.mem_cons_of_mem _ hx) y (List.mem_cons_of_mem _ hy))

lemma mem_insertNew {α : Type} [DecidableEq α] (x y : α) (l : List α) :
    x ∈ insertNew y l ↔ x = y ∨ x ∈ l := by
  rw [insertNew]
  by_cases hy : y ∈ l
  · rw [if_pos hy]
    constructor
    · exact Or.inr
    · rintro (rfl | hx)
      · exact hy
      · exact hx
  · rw [if_neg hy]
    exact List.mem_cons

lemma candsOf_subset (cfg : Cfg) (st : SState) : candsOf cfg st ⊆ cfg.nodes :=
  fun _ hc => (List.mem_filter.mp hc).1

lemma candsOf_base_not_used (cfg : Cfg) (st : SState) (c : String × ℚ)
    (hc : c ∈ candsOf cfg st) : candidateBase c.1 ∉ postUsedN st := by
  rcases List.mem_filter.mp hc with ⟨_, hcond⟩
  simp only [Bool.not_eq_true'] at hcond
  intro hmem
  have htrue : (postUsedN st).contains (candidateBase c.1) = true := by
    simpa using hmem
  rw [htrue] at hcond
  exact Bool.noConfusion hcond

lemma admitB_not_dup (cfg : Cfg) (curW : ℚ) (usedM : List ℚ) (c : String × ℚ)
    (ha : admitB cfg curW usedM c = true) (m : ℚ) (hm : m ∈ usedM) :
    ¬(|c.2 - m| / c.2 * 1000000 < 10) := by
  intro hlt
  have hdup : isDuplicate usedM c.2 = true := by
    rw [isDuplicate, List.any_eq_true]
    exact ⟨m, hm, decide_eq_true hlt⟩
  rw [admitB, hdup] at ha
  simp at ha

lemma lookupDict_of_mem_nodup (m : List (String × ℚ)) (k : String) (v : ℚ)
    (hnd : (m.map Prod.fst).Nodup) (hmem : (k, v) ∈ m) :
    lookupDict m k = some v := by
  induction m with
  | nil => exact absurd hmem (List.not_mem_nil _)
  | cons p t ih =>
    rcases List.mem_cons.mp hmem with rfl | hmem'
    · simp [lookupDict, List.find?]
    · rw [List.map_cons, List.nodup_cons] at hnd
      have hne : ¬(p.1 = k) := by
        intro hk
        exact hnd.1 (hk ▸ List.mem_map.mpr ⟨(k, v), hmem', rfl⟩)
      rw [lookupDict, List.find?]
      rw [show (decide (p.1 = k)) = false from decide_eq_false hne]
      exact ih hnd.2 hmem'

lemma lookupDict_of_not_mem (m : List (String × ℚ)) (k : String)
    (h : k ∉ m.map Prod.fst) : lookupDict m k = none := by
  rw [lookupDict, List.find?_eq_none.mpr]
  · rfl
  · intro p hp hk
    exact h (List.mem_map.mpr ⟨p, hp, of_decide_eq_true hk⟩)

lemma lookupDict_of_pair_mem :
    ∀ (m : List (String × ℚ)) (p : String × ℚ), p ∈ m →
      ∃ v, lookupDict m p.1 = some v := by
  intro m
  induction m with
  | nil => intro p hp; exact absurd hp (List.not_mem_nil _)
  | cons q t ih =>
    intro p hp
    by_cases hq : q.1 = p.1
    · exact ⟨q.2, by simp [lookupDict, List.find?, hq]⟩
    · rcases List.mem_cons.mp hp with rfl | hp'
      · exact absurd rfl hq
      · rcases ih p hp' with ⟨v, hv⟩
        refine ⟨v, ?_⟩
        rw [lookupDict, List.find?, show (decide (q.1 = p.1)) = false from decide_eq_false hq]
        exact hv

lemma lookupDict_of_mem_fst (m : List (String × ℚ)) (k : String)
    (h : k ∈ m.map Prod.fst) : ∃ v, lookupDict m k = some v := by
  rcases List.mem_map.mp h with ⟨p, hp, rfl⟩
  exact lookupDict_of_pair_mem m p hp

/-! Section: C7: depth bound -/

/-- C7. Depth bound: (1) every result path of a completed search with
`max_depth ≥ 1` has at most `max_depth` steps; (2) a dequeued state whose
depth has reached `max_depth` is discarded without expansion (queue and
results unchanged); (3) the candidate loop never enqueues a child when
`current_depth + 1 < max_depth` fails. -/
theorem c7_depth_bound :
    (∀ (cfg : Cfg) (startKey : String) (fuel : Nat) (rs : List RPath),
        1 ≤ cfg.maxD → findMatches cfg startKey fuel = Except.ok rs →
        ∀ p ∈ rs, p.length ≤ cfg.maxD) ∧
    (∀ (cfg : Cfg) (st : SState) (q : List SState) (r : List RPath),
        cfg.maxD ≤ st.depth → expandState cfg st q r = Except.ok (q, r)) ∧
    (∀ (cfg : Cfg) (curKey : String) (curW : ℚ) (depth : Nat) (path : RPath)
        (usedN : List String) (usedM : List ℚ) (acc : List SState × List RPath)
        (c : String × ℚ), ¬(depth + 1 < cfg.maxD) →
        (processCandidate cfg curKey curW depth path usedN usedM acc c).1 = acc.1) := by
  refine ⟨?_, ?_, ?_⟩
  · intro cfg startKey fuel rs _ hrun
    refine searchLoop_inv cfg (fun st => st.path.length = st.depth)
      (fun p => p.length ≤ cfg.maxD) ?_ fuel _ _ rs ?_ ?_ hrun
    · intro st w hQI hdep _
      constructor
      · intro s hs
        rcases (mem_stKids cfg st w s).mp hs with ⟨c, _, _, _, _, rfl⟩
        simp [hQI]
      · intro p hp
        rcases (mem_stEmits cfg st w p).mp hp with ⟨c, _, _, _, rfl⟩
        simp only [List.length_append, List.length_singleton, hQI]
        omega
    · intro s hs
      rcases List.mem_singleton.mp hs with rfl
      rfl
    · intro p hp
      exact absurd hp (List.not_mem_nil _)
  · intro cfg st q r h
    exact expandState_depth_ge cfg st q r h
  · intro cfg curKey curW depth path usedN usedM acc c hdep
    by_cases h1 : isDuplicate usedM c.2
    · simp [processCandidate, h1]
    · by_cases h2 : (lookupDiff cfg.records |c.2 - curW|).isEmpty
      · simp [processCandidate, h1, h2]
      · by_cases h3 : goalTest cfg.endW c.2
        · simp [processCandidate, h1, h2, h3]
        · simp [processCandidate, h1, h2, h3, hdep]

/-- A complete concrete run used by the C7 witness: one central node at
mass 300 and one at 330, one reaction of delta 30, end mass 330. -/
lemma run_c7 :
    findMatches ⟨330, 2, [("300.0", 300), ("330.0", 330)], [("R7", 30)]⟩ "300.0" 5 =
      Except.ok [[⟨"300.0", "330.0", ["R7"]⟩]] := by
  have h0 : candidateBase "300.0" = "300.0" := by decide
  have h2 : candidateBase "330.0" = "330.0" := by decide
  have h1 : currentBase "300.0" = "300.0" := by decide
  have e1 : lookupDict [("300.0", (300 : ℚ)), ("330.0", 330)] "300.0" = some 300 := by decide
  have c1 : lookupDiff [("R7", (30 : ℚ))] |(330 : ℚ) - 300| = ["R7"] := by
    norm_num [lookupDiff, sortedBounds, firstDedup, firstDedupAux, bound, diffMapping,
      bisectRight, scanLeft, scanRight, diffTol, List.insertionSort, List.orderedInsert,
      List.filter_cons, List.filter_nil, List.countP_cons, List.countP_nil, Prod.ext_iff]
  have c2 : isDuplicate [(300 : ℚ)] 330 = false := by
    norm_num [isDuplicate, isSameMolecule]
  have c3 : goalTest 330 330 = true := by norm_num [goalTest]
  have hk1 : stKids ⟨330, 2, [("300.0", 300), ("330.0", 330)], [("R7", 30)]⟩
      ⟨"300.0", 0, [], [], []⟩ 300 = [] := by
    simp only [stKids, kidsOf, candsOf, postUsedN, postUsedM, insertNew, h1,
      List.filter_cons, List.filter_nil, admitB, stepFor, c1, c2, c3, h2, h0]
    simp [c1, c2, c3]
  have he1 : stEmits ⟨330, 2, [("300.0", 300), ("330.0", 330)], [("R7", 30)]⟩
      ⟨"300.0", 0, [], [], []⟩ 300 = [[⟨"300.0", "330.0", ["R7"]⟩]] := by
    simp only [stEmits, emitsOf, candsOf, postUsedN, postUsedM, insertNew, h1,
      List.filter_cons, List.filter_nil, admitB, stepFor, c1, c2, c3, h2, h0]
    simp [c1, c2, c3]
  rw [findMatches, searchLoop_cons_found _ 4 _ _ _ 300 (by norm_num) e1, hk1, he1]
  rfl

/-- Witness for C7: the one-step result of a completed concrete run is
within the depth bound 2. -/
theorem c7_depth_bound_witness :
    ([Step.mk "300.0" "330.0" ["R7"]] : RPath).length ≤ 2 :=
  c7_depth_bound.1 ⟨330, 2, [("300.0", 300), ("330.0", 330)], [("R7", 30)]⟩
    "300.0" 5 _ (by norm_num) run_c7 [Step.mk "300.0" "330.0" ["R7"]]
    (List.mem_singleton.mpr rfl)

/-! Section: C10: no zero-step result -/

/-- C10. Every emitted result path has at least one step: results are
only appended inside the candidate loop as `path + [new_step]`, so the
start node alone is never a result, even when the start mass is within the
target tolerance of the end mass. -/
theorem c10_no_zero_step_path :
    ∀ (cfg : Cfg) (startKey : String) (fuel : Nat) (rs : List RPath),
      findMatches cfg startKey fuel = Except.ok rs → ∀ p ∈ rs, p ≠ [] := by
  intro cfg startKey fuel rs hrun
  refine searchLoop_inv cfg (fun _ => True) (fun p => p ≠ []) ?_ fuel _ _ rs
    (fun _ _ => trivial) (fun p hp => absurd hp (List.not_mem_nil _)) hrun
  intro st w _ _ _
  refine ⟨fun _ _ => trivial, ?_⟩
  intro p hp
  rcases (mem_stEmits cfg st w p).mp hp with ⟨c, _, _, _, rfl⟩
  simp

/-- Witness for C10: the path emitted by a completed concrete run is
non-empty. -/
theorem c10_no_zero_step_path_witness :
    ([Step.mk "300.0" "330.0" ["R7"]] : RPath) ≠ [] :=
  c10_no_zero_step_path ⟨330, 2, [("300.0", 300), ("330.0", 330)], [("R7", 30)]⟩
    "300.0" 5 _ run_c7 [Step.mk "300.0" "330.0" ["R7"]] (List.mem_singleton.mpr rfl)

/-! Section: C8: adduct application -/

/-- C8. For every adduct rule whose label starts with `'+'`, the node
key is `"{original_weight}+{ion}"` and the adjusted mass is
`original_weight - mass`; for a label starting with `'-'`, the key is
`"{original_weight}-{ion}"` and the adjusted mass is
`original_weight + mass`, where `ion` is the label without its first
character. -/
theorem c8_apply_adduct (origStr : String) (origW : ℚ) (adduct : String × ℚ) :
    (adduct.1.toList.head? = some '+' →
      applyAdduct origStr origW adduct =
        (origStr ++ "+" ++ (adduct.1.toList.drop 1).asString, origW - adduct.2)) ∧
    (adduct.1.toList.head? = some '-' →
      applyAdduct origStr origW adduct =
        (origStr ++ "-" ++ (adduct.1.toList.drop 1).asString, origW + adduct.2)) := by
  constructor
  · intro h
    simp only [applyAdduct]
    rw [if_pos h]
  · intro h
    simp only [applyAdduct]
    rw [if_neg (fun hc => absurd (h.symm.trans hc) (by decide))]

/-- Witness for C8: the rules `("+H", 1)` and `("-H", 1)` applied to the
observed weight `10.5`. -/
theorem c8_apply_adduct_witness :
    applyAdduct "10.5" (21 / 2) ("+H", 1) = ("10.5+H", 19 / 2) ∧
    applyAdduct "10.5" (21 / 2) ("-H", 1) = ("10.5-H", 23 / 2) := by
  constructor
  · rw [(c8_apply_adduct "10.5" (21 / 2) ("+H", 1)).1 (by decide)]
    exact Prod.ext_iff.mpr ⟨by decide, by norm_num⟩
  · rw [(c8_apply_adduct "10.5" (21 / 2) ("-H", 1)).2 (by decide)]
    exact Prod.ext_iff.mpr ⟨by decide, by norm_num⟩

/-! Section: C3: goal test and terminal arrival -/

/-- C3. (1) In every completed run, every emitted result path ends in a
step whose target node mass `w` (as recorded in the node table) satisfies
`|w - end_weight| / w * 1e6 < 20`.  (2) A candidate that passes the
duplicate test, has a non-empty reaction match and satisfies the goal test
is emitted as a result and the queue is left unchanged — an arriving path
is never re-enqueued for further extension. -/
theorem c3_goal_test :
    (∀ (cfg : Cfg) (startKey : String) (fuel : Nat) (rs : List RPath),
        findMatches cfg startKey fuel = Except.ok rs →
        ∀ p ∈ rs, ∃ s : Step, p.getLast? = some s ∧
          ∃ w : ℚ, (s.target, w) ∈ cfg.nodes ∧ |w - cfg.endW| / w * 1000000 < 20) ∧
    (∀ (cfg : Cfg) (curKey : String) (curW : ℚ) (depth : Nat) (path : RPath)
        (usedN : List String) (usedM : List ℚ) (acc : List SState × List RPath)
        (c : String × ℚ),
        isDuplicate usedM c.2 = false →
        (lookupDiff cfg.records |c.2 - curW|).isEmpty = false →
        goalTest cfg.endW c.2 = true →
        processCandidate cfg curKey curW depth path usedN usedM acc c =
          (acc.1, acc.2 ++ [path ++ [⟨curKey, c.1, lookupDiff cfg.records |c.2 - curW|⟩]])) := by
  constructor
  · intro cfg startKey fuel rs hrun
    refine searchLoop_inv cfg (fun _ => True)
      (fun p => ∃ s : Step, p.getLast? = some s ∧
        ∃ w : ℚ, (s.target, w) ∈ cfg.nodes ∧ |w - cfg.endW| / w * 1000000 < 20)
      ?_ fuel _ _ rs (fun _ _ => trivial) (fun p hp => absurd hp (List.not_mem_nil _)) hrun
    intro st w _ _ _
    refine ⟨fun _ _ => trivial, ?_⟩
    intro p hp
    rcases (mem_stEmits cfg st w p).mp hp with ⟨c, hc, _, hg, rfl⟩
    refine ⟨stepFor cfg st.key w c, List.getLast?_concat _, c.2, ?_, ?_⟩
    · have : (c.1, c.2) = c := rfl
      rw [stepFor]
      rw [this]
      exact candsOf_subset cfg st hc
    · simpa only [goalTest, decide_eq_true_eq] using hg
  · intro cfg curKey curW depth path usedN usedM acc c h1 h2 h3
    simp [processCandidate, h1, h2, h3]

/-- A complete concrete run used by the C3 witness. -/
lemma run_c3 :
    findMatches ⟨215, 2, [("200.0", 200), ("215.0", 215)], [("T1", 15)]⟩ "200.0" 5 =
      Except.ok [[⟨"200.0", "215.0", ["T1"]⟩]] := by
  have h0 : candidateBase "200.0" = "200.0" := by decide
  have h2 : candidateBase "215.0" = "215.0" := by decide
  have h1 : currentBase "200.0" = "200.0" := by decide
  have e1 : lookupDict [("200.0", (200 : ℚ)), ("215.0", 215)] "200.0" = some 200 := by decide
  have c1 : lookupDiff [("T1", (15 : ℚ))] |(215 : ℚ) - 200| = ["T1"] := by
    norm_num [lookupDiff, sortedBounds, firstDedup, firstDedupAux, bound, diffMapping,
      bisectRight, scanLeft, scanRight, diffTol, List.insertionSort, List.orderedInsert,
      List.filter_cons, List.filter_nil, List.countP_cons, List.countP_nil, Prod.ext_iff]
  have c2 : isDuplicate [(200 : ℚ)] 215 = false := by
    norm_num [isDuplicate, isSameMolecule]
  have c3 : goalTest 215 215 = true := by norm_num [goalTest]
  have hk1 : stKids ⟨215, 2, [("200.0", 200), ("215.0", 215)], [("T1", 15)]⟩
      ⟨"200.0", 0, [], [], []⟩ 200 = [] := by
    simp only [stKids, kidsOf, candsOf, postUsedN, postUsedM, insertNew, h1,
      List.filter_cons, List.filter_nil, admitB, stepFor, c1, c2, c3, h2, h0]
    simp [c1, c2, c3]
  have he1 : stEmits ⟨215, 2, [("200.0", 200), ("215.0", 215)], [("T1", 15)]⟩
      ⟨"200.0", 0, [], [], []⟩ 200 = [[⟨"200.0", "215.0", ["T1"]⟩]] := by
    simp only [stEmits, emitsOf, candsOf, postUsedN, postUsedM, insertNew, h1,
      List.filter_cons, List.filter_nil, admitB, stepFor, c1, c2, c3, h2, h0]
    simp [c1, c2, c3]
  rw [findMatches, searchLoop_cons_found _ 4 _ _ _ 200 (by norm_num) e1, hk1, he1]
  rfl

/-- Witness for C3: the concrete run emits one path, whose last target
mass satisfies the 20 ppm goal test; and a concrete goal-passing candidate
is emitted without being enqueued. -/
theorem c3_goal_test_witness :
    (∃ s : Step, ([Step.mk "200.0" "215.0" ["T1"]] : RPath).getLast? = some s ∧
      ∃ w : ℚ, (s.target, w) ∈ [(("200.0" : String), (200 : ℚ)), ("215.0", 215)] ∧
        |w - 215| / w * 1000000 < 20) ∧
    processCandidate ⟨215, 2, [("200.0", 200), ("215.0", 215)], [("T1", 15)]⟩
        "200.0" 200 0 [] ["200.0"] [200] ([], []) ("215.0", 215) =
      ([], [[⟨"200.0", "215.0",
        lookupDiff [("T1", 15)] |(215 : ℚ) - 200|⟩]]) := by
  constructor
  · exact c3_goal_test.1 ⟨215, 2, [("200.0", 200), ("215.0", 215)], [("T1", 15)]⟩
      "200.0" 5 _ run_c3 [Step.mk "200.0" "215.0" ["T1"]] (List.mem_singleton.mpr rfl)
  · have hne : (lookupDiff [("T1", (15 : ℚ))] |(215 : ℚ) - 200|).isEmpty = false := by
      have c1 : lookupDiff [("T1", (15 : ℚ))] |(215 : ℚ) - 200| = ["T1"] := by
        norm_num [lookupDiff, sortedBounds, firstDedup, firstDedupAux, bound, diffMapping,
          bisectRight, scanLeft, scanRight, diffTol, List.insertionSort, List.orderedInsert,
          List.filter_cons, List.filter_nil, List.countP_cons, List.countP_nil, Prod.ext_iff]
      rw [c1]
      rfl
    exact c3_goal_test.2 ⟨215, 2, [("200.0", 200), ("215.0", 215)], [("T1", 15)]⟩
      "200.0" 200 0 [] ["200.0"] [200] ([], []) ("215.0", 215)
      (by norm_num [isDuplicate, isSameMolecule]) hne (by norm_num [goalTest])

/-! Section: C2: the duplicate-molecule test divides by the candidate mass -/

/-- Counterexample to C2.  With used mass `m = 100001` and candidate mass
`C.mass = 100000`, the claim's condition `|C.mass - m| / m * 1e6 < 10`
holds (second conjunct: `1e6 / 100001 < 10`), so per the claim the
candidate must be skipped as a duplicate; yet the run emits a path through
that candidate (first conjunct): the code divides by the candidate mass,
and `|100000 - 100001| / 100000 * 1e6 = 10` is not `< 10`. -/
theorem c2_counterexample :
    findMatches ⟨100000, 1, [("100001.0", 100001), ("100000.0", 100000)], [("D1", 1)]⟩
        "100001.0" 5 =
      Except.ok [[⟨"100001.0", "100000.0", ["D1"]⟩]] ∧
    |(100000 : ℚ) - 100001| / 100001 * 1000000 < 10 := by
  constructor
  · have h0 : candidateBase "100001.0" = "100001.0" := by decide
    have h2 : candidateBase "100000.0" = "100000.0" := by decide
    have h1 : currentBase "100001.0" = "100001.0" := by decide
    have e1 : lookupDict [("100001.0", (100001 : ℚ)), ("100000.0", 100000)] "100001.0" =
        some 100001 :=
      lookupDict_cons_self ("100001.0", (100001 : ℚ)) _
    have c1 : lookupDiff [("D1", (1 : ℚ))] |(100000 : ℚ) - 100001| = ["D1"] := by
      norm_num [lookupDiff, sortedBounds, firstDedup, firstDedupAux, bound, diffMapping,
        bisectRight, scanLeft, scanRight, diffTol, List.insertionSort, List.orderedInsert,
        List.filter_cons, List.filter_nil, List.countP_cons, List.countP_nil, Prod.ext_iff,
        abs_neg, abs_of_nonneg]
    have c2 : isDuplicate [(100001 : ℚ)] 100000 = false := by
      norm_num [isDuplicate, isSameMolecule, abs_neg, abs_of_nonneg]
    have c3 : goalTest 100000 100000 = true := by norm_num [goalTest]
    have hk1 : stKids ⟨100000, 1, [("100001.0", 100001), ("100000.0", 100000)], [("D1", 1)]⟩
        ⟨"100001.0", 0, [], [], []⟩ 100001 = [] := by
      simp only [stKids, kidsOf, candsOf, postUsedN, postUsedM, insertNew, h1,
        List.filter_cons, List.filter_nil, admitB, stepFor, c1, c2, c3, h2, h0]
      simp [c1, c2, c3]
    have he1 : stEmits ⟨100000, 1, [("100001.0", 100001), ("100000.0", 100000)], [("D1", 1)]⟩
        ⟨"100001.0", 0, [], [], []⟩ 100001 = [[⟨"100001.0", "100000.0", ["D1"]⟩]] := by
      simp only [stEmits, emitsOf, candsOf, postUsedN, postUsedM, insertNew, h1,
        List.filter_cons, List.filter_nil, admitB, stepFor, c1, c2, c3, h2, h0]
      simp [c1, c2, c3]
    rw [findMatches, searchLoop_cons_found _ 4 _ _ _ 100001 (by norm_num) e1, hk1, he1]
    rfl
  · norm_num

/-- C2, amended. A candidate is skipped as a duplicate exactly when
some used mass `m` satisfies `|C.mass - m| / C.mass * 1e6 < 10` — the ppm
tolerance is computed relative to the candidate's own mass (the first
argument of `is_same_molecule`), not the used mass; and a candidate that
tests as a duplicate leaves the queue and results untouched. -/
theorem c2_duplicate_test :
    (∀ (usedM : List ℚ) (w : ℚ),
        isDuplicate usedM w = true ↔ ∃ m ∈ usedM, |w - m| / w * 1000000 < 10) ∧
    (∀ (cfg : Cfg) (curKey : String) (curW : ℚ) (depth : Nat) (path : RPath)
        (usedN : List String) (usedM : List ℚ) (acc : List SState × List RPath)
        (c : String × ℚ), isDuplicate usedM c.2 = true →
        processCandidate cfg curKey curW depth path usedN usedM acc c = acc) := by
  constructor
  · intro usedM w
    simp [isDuplicate, isSameMolecule, List.any_eq_true]
  · intro cfg curKey curW depth path usedN usedM acc c h
    simp [processCandidate, h]

/-- Witness for the amended C2: the duplicate test at a concrete used-mass
list, and a concrete duplicate candidate leaving the accumulator
unchanged. -/
theorem c2_duplicate_test_witness :
    (isDuplicate [(100 : ℚ)] 100 = true ↔
      ∃ m ∈ [(100 : ℚ)], |(100 : ℚ) - m| / 100 * 1000000 < 10) ∧
    processCandidate ⟨100, 2, [], []⟩ "k" 100 0 [] [] [100] ([], []) ("c", 100) = ([], []) :=
  ⟨c2_duplicate_test.1 [100] 100,
   c2_duplicate_test.2 ⟨100, 2, [], []⟩ "k" 100 0 [] [] [100] ([], []) ("c", 100)
     (by norm_num [isDuplicate, isSameMolecule])⟩

/-! Section: C9: a missing key is a fatal KeyError, not a silent skip -/

lemma searchLoop_total (cfg : Cfg) :
    ∀ (fuel : Nat) (q : List SState) (r : List RPath),
      (∀ s ∈ q, s.key ∈ cfg.nodes.map Prod.fst) →
      ∃ rs, searchLoop cfg fuel q r = Except.ok rs := by
  intro fuel
  induction fuel with
  | zero => intro q r _; exact ⟨r, rfl⟩
  | succ n ih =>
    intro q r hq
    match q with
    | [] => exact ⟨r, rfl⟩
    | st :: rest =>
      by_cases hd : cfg.maxD ≤ st.depth
      · rw [searchLoop_cons_discard cfg n st rest r hd]
        exact ih rest r (fun s hs => hq s (List.mem_cons_of_mem _ hs))
      · rcases lookupDict_of_mem_fst cfg.nodes st.key (hq st (List.mem_cons_self _ _)) with ⟨w, hw⟩
        rw [searchLoop_cons_found cfg n st rest r w (lt_of_not_le hd) hw]
        refine ih _ _ ?_
        intro s hs
        rcases List.mem_append.mp hs with hs | hs
        · exact hq s (List.mem_cons_of_mem _ hs)
        · rcases (mem_stKids cfg st w s).mp hs with ⟨c, hc, _, _, _, rfl⟩
          exact List.mem_map.mpr ⟨c, candsOf_subset cfg st hc, rfl⟩

/-- Counterexample to C9.  A run whose start key `"99.0"` is not in the
node set does not silently skip the state: it aborts with the `KeyError`
of `ms_data[current_key]`, modelled as `Except.error "99.0"`, and produces
no result collection at all. -/
theorem c9_counterexample :
    findMatches ⟨100, 3, [("100.0", 100)], [("R1", 1)]⟩ "99.0" 5 = Except.error "99.0" := by
  rw [findMatches, searchLoop_cons_error _ 4 _ _ _ (by norm_num) (by decide)]

/-- C9, amended. A dequeued state whose `current_key` is missing from
the node set makes the whole search fail with a `KeyError` naming that key
(fatal — only possible for the start key, and only when `max_depth > 0`
lets the state be expanded); when the start key is present, no dequeued
state can ever fail, and the search always completes normally. -/
theorem c9_key_error :
    (∀ (cfg : Cfg) (startKey : String) (fuel : Nat),
        startKey ∉ cfg.nodes.map Prod.fst → 0 < cfg.maxD → 0 < fuel →
        findMatches cfg startKey fuel = Except.error startKey) ∧
    (∀ (cfg : Cfg) (startKey : String) (fuel : Nat),
        startKey ∈ cfg.nodes.map Prod.fst →
        ∃ rs, findMatches cfg startKey fuel = Except.ok rs) := by
  constructor
  · intro cfg startKey fuel hnot hmd hf
    match fuel, hf with
    | Nat.succ n, _ =>
      rw [findMatches,
        searchLoop_cons_error cfg n ⟨startKey, 0, [], [], []⟩ [] [] hmd
          (lookupDict_of_not_mem cfg.nodes startKey hnot)]
  · intro cfg startKey fuel hmem
    refine searchLoop_total cfg fuel [⟨startKey, 0, [], [], []⟩] [] ?_
    intro s hs
    rcases List.mem_singleton.mp hs with rfl
    exact hmem

/-- Witness for the amended C9: a concrete absent start key aborts with
`Except.error`, a concrete present one completes with `Except.ok`. -/
theorem c9_key_error_witness :
    findMatches ⟨50, 2, [("40.0", 40)], []⟩ "77.0" 3 = Except.error "77.0" ∧
    ∃ rs, findMatches ⟨50, 2, [("40.0", 40)], []⟩ "40.0" 4 = Except.ok rs :=
  ⟨c9_key_error.1 ⟨50, 2, [("40.0", 40)], []⟩ "77.0" 3 (by decide) (by norm_num) (by norm_num),
   c9_key_error.2 ⟨50, 2, [("40.0", 40)], []⟩ "40.0" 4 (by decide)⟩

/-! Section: C5: base-weight exclusion -/


lemma keyChain_concat (startKey : String) (p : RPath) (s : Step) :
    keyChain startKey (p ++ [s]) = keyChain startKey p ++ [s.target] := by
  simp [keyChain]

lemma keyChain_ne_nil (startKey : String) (p : RPath) :
    keyChain startKey p ≠ [] := by
  simp [keyChain]

lemma chain_decomp (startKey : String) (p : RPath) (k : String)
    (hA : (keyChain startKey p).getLast? = some k) :
    keyChain startKey p = (keyChain startKey p).dropLast ++ [k] := by
  have hne := keyChain_ne_nil startKey p
  have h1 : (keyChain startKey p).getLast hne = k := by
    rw [List.getLast?_eq_getLast _ hne] at hA
    exact Option.some.inj hA
  conv_lhs => rw [← List.dropLast_append_getLast hne]
  rw [h1]

/-- C5, amended. The base-weight exclusion uses two different
extraction functions: dequeue-time `currentBase` (split at the first `'+'`
when one occurs, else the first `'-'`) and candidate-time `candidateBase`
(split at the first `'+'`, then the first `'-'`).  Whenever the two agree
on the start key and on every node key — which holds unless some key
contains a `'-'` before its first `'+'` — no two steps of an emitted path
have targets sharing a base weight, and no target shares a base weight
with the start node. -/
theorem c5_base_weight_exclusion (cfg : Cfg) (startKey : String) (fuel : Nat)
    (rs : List RPath)
    (hbase : ∀ k ∈ startKey :: cfg.nodes.map Prod.fst, candidateBase k = currentBase k)
    (hrun : findMatches cfg startKey fuel = Except.ok rs) :
    ∀ p ∈ rs, ((startKey :: p.map Step.target).map candidateBase).Nodup := by
  have main : ∀ p ∈ rs,
      List.Pairwise (fun a b => candidateBase b ≠ currentBase a) (keyChain startKey p) ∧
      (∀ t ∈ p.map Step.target, t ∈ cfg.nodes.map Prod.fst) := by
    refine searchLoop_inv cfg
      (fun st =>
        (keyChain startKey st.path).getLast? = some st.key ∧
        (∀ x, x ∈ st.usedNodes ↔
          ∃ k ∈ (keyChain startKey st.path).dropLast, currentBase k = x) ∧
        List.Pairwise (fun a b => candidateBase b ≠ currentBase a) (keyChain startKey st.path) ∧
        (∀ t ∈ st.path.map Step.target, t ∈ cfg.nodes.map Prod.fst))
      (fun p =>
        List.Pairwise (fun a b => candidateBase b ≠ currentBase a) (keyChain startKey p) ∧
        (∀ t ∈ p.map Step.target, t ∈ cfg.nodes.map Prod.fst))
      ?_ fuel _ _ rs ?_ ?_ hrun
    · intro st w hQ _ hlk
      rcases hQ with ⟨hA, hU, hP, hT⟩
      have hdec := chain_decomp startKey st.path st.key hA
      have hcur_all : ∀ a ∈ keyChain startKey st.path, currentBase a ∈ postUsedN st := by
        intro a ha
        rw [hdec] at ha
        rcases List.mem_append.mp ha with ha' | ha'
        · exact (mem_insertNew _ _ _).mpr (Or.inr ((hU (currentBase a)).mpr ⟨a, ha', rfl⟩))
        · rcases List.mem_singleton.mp ha' with rfl
          exact (mem_insertNew _ _ _).mpr (Or.inl rfl)
      have hPnew : ∀ c ∈ candsOf cfg st,
          List.Pairwise (fun a b => candidateBase b ≠ currentBase a)
            (keyChain startKey st.path ++ [c.1]) := by
        intro c hc
        refine List.pairwise_append.mpr ⟨hP, ?_, ?_⟩
        · exact List.Pairwise.cons (fun b hb => absurd hb (List.not_mem_nil _))
            List.Pairwise.nil
        · intro a ha b hb
          rcases List.mem_singleton.mp hb with rfl
          intro heq
          exact candsOf_base_not_used cfg st c hc (heq ▸ hcur_all a ha)
      have hUnew : ∀ x, x ∈ postUsedM w st → True := fun _ _ => trivial
      constructor
      · intro s hs
        rcases (mem_stKids cfg st w s).mp hs with ⟨c, hc, _, _, _, rfl⟩
        refine ⟨?_, ?_, ?_, ?_⟩
        · rw [keyChain_concat, List.getLast?_concat]
          rfl
        · intro x
          rw [keyChain_concat, List.dropLast_concat]
          simp only [postUsedN]
          rw [mem_insertNew]
          constructor
          · rintro (rfl | hx)
            · exact ⟨st.key, by rw [hdec]; exact List.mem_append_right _ (List.mem_singleton.mpr rfl), rfl⟩
            · rcases (hU x).mp hx with ⟨k, hk, hkx⟩
              exact ⟨k, (List.dropLast_sublist _).subset hk, hkx⟩
          · rintro ⟨k, hk, rfl⟩
            rw [hdec] at hk
            rcases List.mem_append.mp hk with hk' | hk'
            · exact Or.inr ((hU _).mpr ⟨k, hk', rfl⟩)
            · rcases List.mem_singleton.mp hk' with rfl
              exact Or.inl rfl
        · rw [keyChain_concat]
          exact hPnew c hc
        · intro t ht
          simp only [List.map_append, List.map_cons, List.map_nil] at ht
          rcases List.mem_append.mp ht with ht' | ht'
          · exact hT t ht'
          · rcases List.mem_singleton.mp ht' with rfl
            exact List.mem_map.mpr ⟨c, candsOf_subset cfg st hc, rfl⟩
      · intro p hp
        rcases (mem_stEmits cfg st w p).mp hp with ⟨c, hc, _, _, rfl⟩
        constructor
        · rw [keyChain_concat]
          exact hPnew c hc
        · intro t ht
          simp only [List.map_append, List.map_cons, List.map_nil] at ht
          rcases List.mem_append.mp ht with ht' | ht'
          · exact hT t ht'
          · rcases List.mem_singleton.mp ht' with rfl
            exact List.mem_map.mpr ⟨c, candsOf_subset cfg st hc, rfl⟩
    · intro s hs
      rcases List.mem_singleton.mp hs with rfl
      refine ⟨rfl, ?_, ?_, ?_⟩
      · intro x
        simp [keyChain]
      · exact List.Pairwise.cons (fun b hb => absurd hb (List.not_mem_nil _))
          List.Pairwise.nil
      · intro t ht
        exact absurd ht (List.not_mem_nil _)
    · intro p hp
      exact absurd hp (List.not_mem_nil _)
  intro p hp
  rcases main p hp with ⟨hP, hT⟩
  have hchain : ∀ a ∈ keyChain startKey p, candidateBase a = currentBase a := by
    intro a ha
    rcases List.mem_cons.mp ha with rfl | ha'
    · exact hbase a (List.mem_cons_self _ _)
    · exact hbase a (List.mem_cons_of_mem _ (hT a ha'))
  have hP' : List.Pairwise (fun a b => candidateBase a ≠ candidateBase b)
      (keyChain startKey p) := by
    refine List.Pairwise.imp_of_mem ?_ hP
    intro a b ha hb hab
    rw [← hchain a ha] at hab
    exact fun h => hab h.symm
  rw [show startKey :: p.map Step.target = keyChain startKey p from rfl]
  rw [List.Nodup, List.pairwise_map]
  exact hP'

/-- The node space of the C5 counterexample, as `load_data` builds it:
the adduct rule `("-A+B", 10)` applied to observed weight `50.0` yields
the key `"50.0-A+B"`, whose text contains a `'-'` before its `'+'`. -/
lemma load_c5 :
    loadMsData [("100.0", 100)] [("50.0", 50)] [("-A+B", 10), ("+C", 5)] =
      [("100.0", 100), ("50.0-A+B", 60), ("50.0+C", 45)] := by
  have a1 : applyAdduct "50.0" 50 ("-A+B", 10) = ("50.0-A+B", 60) := by
    with_unfolding_all decide
  have a2 : applyAdduct "50.0" 50 ("+C", 5) = ("50.0+C", 45) := by
    with_unfolding_all decide
  simp [loadMsData, dictInsert, a1, a2]

/-- The complete search run of the C5 counterexample. -/
lemma run_c5 :
    findMatches ⟨45, 2, [("100.0", 100), ("50.0-A+B", 60), ("50.0+C", 45)],
        [("R1", 40), ("R2", 15)]⟩ "100.0" 10 =
      Except.ok [[⟨"100.0", "50.0-A+B", ["R1"]⟩, ⟨"50.0-A+B", "50.0+C", ["R2"]⟩]] := by
  have b1 : candidateBase "100.0" = "100.0" := by decide
  have b2 : candidateBase "50.0-A+B" = "50.0" := by decide
  have b3 : candidateBase "50.0+C" = "50.0" := by decide
  have u1 : currentBase "100.0" = "100.0" := by decide
  have u2 : currentBase "50.0-A+B" = "50.0-A" := by decide
  have e1 : lookupDict [("100.0", (100 : ℚ)), ("50.0-A+B", 60), ("50.0+C", 45)] "100.0" =
      some 100 := lookupDict_cons_self ("100.0", (100 : ℚ)) _
  have e2 : lookupDict [("100.0", (100 : ℚ)), ("50.0-A+B", 60), ("50.0+C", 45)] "50.0-A+B" =
      some 60 := by simp [lookupDict, List.find?]
  have c1 : lookupDiff [("R1", (40 : ℚ)), ("R2", 15)] |(60 : ℚ) - 100| = ["R1"] := by
    norm_num [lookupDiff, sortedBounds, firstDedup, firstDedupAux, bound, diffMapping,
      bisectRight, scanLeft, scanRight, diffTol, relLower, List.insertionSort,
      List.orderedInsert, List.filter_cons, List.filter_nil, List.countP_cons,
      List.countP_nil, Prod.ext_iff, abs_neg, abs_of_nonneg]
  have c2 : lookupDiff [("R1", (40 : ℚ)), ("R2", 15)] |(45 : ℚ) - 100| = [] := by
    norm_num [lookupDiff, sortedBounds, firstDedup, firstDedupAux, bound, diffMapping,
      bisectRight, scanLeft, scanRight, diffTol, relLower, List.insertionSort,
      List.orderedInsert, List.filter_cons, List.filter_nil, List.countP_cons,
      List.countP_nil, Prod.ext_iff, abs_neg, abs_of_nonneg]
  have c3 : lookupDiff [("R1", (40 : ℚ)), ("R2", 15)] |(45 : ℚ) - 60| = ["R2"] := by
    norm_num [lookupDiff, sortedBounds, firstDedup, firstDedupAux, bound, diffMapping,
      bisectRight, scanLeft, scanRight, diffTol, relLower, List.insertionSort,
      List.orderedInsert, List.filter_cons, List.filter_nil, List.countP_cons,
      List.countP_nil, Prod.ext_iff, abs_neg, abs_of_nonneg]
  have d1 : isDuplicate [(100 : ℚ)] 60 = false := by
    norm_num [isDuplicate, isSameMolecule, abs_neg, abs_of_nonneg]
  have d2 : isDuplicate [(100 : ℚ)] 45 = false := by
    norm_num [isDuplicate, isSameMolecule, abs_neg, abs_of_nonneg]
  have d3 : isDuplicate [(60 : ℚ), 100] 60 = true := by
    norm_num [isDuplicate, isSameMolecule, abs_neg, abs_of_nonneg]
  have d4 : isDuplicate [(60 : ℚ), 100] 45 = false := by
    norm_num [isDuplicate, isSameMolecule, abs_neg, abs_of_nonneg]
  have g1 : goalTest 45 60 = false := by norm_num [goalTest]
  have g2 : goalTest 45 45 = true := by norm_num [goalTest]
  have hk1 : stKids ⟨45, 2, [("100.0", 100), ("50.0-A+B", 60), ("50.0+C", 45)],
      [("R1", 40), ("R2", 15)]⟩ ⟨"100.0", 0, [], [], []⟩ 100 =
      [⟨"50.0-A+B", 1, [⟨"100.0", "50.0-A+B", ["R1"]⟩], ["100.0"], [100]⟩] := by
    simp only [stKids, kidsOf, candsOf, postUsedN, postUsedM, insertNew, u1,
      List.filter_cons, List.filter_nil, admitB, stepFor, b1, b2, b3, c1, c2, d1, d2, g1]
    simp [c1, c2, d1, d2, g1]
  have he1 : stEmits ⟨45, 2, [("100.0", 100), ("50.0-A+B", 60), ("50.0+C", 45)],
      [("R1", 40), ("R2", 15)]⟩ ⟨"100.0", 0, [], [], []⟩ 100 = [] := by
    simp only [stEmits, emitsOf, candsOf, postUsedN, postUsedM, insertNew, u1,
      List.filter_cons, List.filter_nil, admitB, stepFor, b1, b2, b3, c1, c2, d1, d2, g1]
    simp [c1, c2, d1, d2, g1]
  have hk2 : stKids ⟨45, 2, [("100.0", 100), ("50.0-A+B", 60), ("50.0+C", 45)],
      [("R1", 40), ("R2", 15)]⟩
      ⟨"50.0-A+B", 1, [⟨"100.0", "50.0-A+B", ["R1"]⟩], ["100.0"], [100]⟩ 60 = [] := by
    simp only [stKids, kidsOf, candsOf, postUsedN, postUsedM, insertNew, u2,
      List.filter_cons, List.filter_nil, admitB, stepFor, b1, b2, b3, c3, d3, d4, g2]
    simp [c3, d3, d4, g2]
  have he2 : stEmits ⟨45, 2, [("100.0", 100), ("50.0-A+B", 60), ("50.0+C", 45)],
      [("R1", 40), ("R2", 15)]⟩
      ⟨"50.0-A+B", 1, [⟨"100.0", "50.0-A+B", ["R1"]⟩], ["100.0"], [100]⟩ 60 =
      [[⟨"100.0", "50.0-A+B", ["R1"]⟩, ⟨"50.0-A+B", "50.0+C", ["R2"]⟩]] := by
    simp only [stEmits, emitsOf, candsOf, postUsedN, postUsedM, insertNew, u2,
      List.filter_cons, List.filter_nil, admitB, stepFor, b1, b2, b3, c3, d3, d4, g2]
    simp [c3, d3, d4, g2]
  rw [findMatches, searchLoop_cons_found _ 9 _ _ _ 100 (by norm_num) e1, hk1, he1]
  simp only [List.nil_append, List.append_nil]
  rw [searchLoop_cons_found _ 8 _ _ _ 60 (by norm_num) e2, hk2, he2]
  simp only [List.nil_append, List.append_nil]
  rfl

/-- Counterexample to C5.  In the run above, the emitted path's two step
targets are `"50.0-A+B"` and `"50.0+C"` — both adduct variants of the same
observed weight, sharing the base weight `"50.0"` (the key with the adduct
suffix stripped).  The dequeue-time extraction splits `"50.0-A+B"` at its
`'+'` into `"50.0-A"`, so the second adduct variant of compound `50.0` is
never excluded. -/
theorem c5_counterexample :
    loadMsData [("100.0", 100)] [("50.0", 50)] [("-A+B", 10), ("+C", 5)] =
      [("100.0", 100), ("50.0-A+B", 60), ("50.0+C", 45)] ∧
    findMatches ⟨45, 2, [("100.0", 100), ("50.0-A+B", 60), ("50.0+C", 45)],
        [("R1", 40), ("R2", 15)]⟩ "100.0" 10 =
      Except.ok [[⟨"100.0", "50.0-A+B", ["R1"]⟩, ⟨"50.0-A+B", "50.0+C", ["R2"]⟩]] ∧
    candidateBase "50.0-A+B" = "50.0" ∧ candidateBase "50.0+C" = "50.0" :=
  ⟨load_c5, run_c5, by decide, by decide⟩

/-- A complete concrete run used by the C5 witness. -/
lemma run_c5w :
    findMatches ⟨217, 2, [("230.0", 230), ("217.0", 217)], [("U1", 13)]⟩ "230.0" 5 =
      Except.ok [[⟨"230.0", "217.0", ["U1"]⟩]] := by
  have h0 : candidateBase "230.0" = "230.0" := by decide
  have h2 : candidateBase "217.0" = "217.0" := by decide
  have h1 : currentBase "230.0" = "230.0" := by decide
  have e1 : lookupDict [("230.0", (230 : ℚ)), ("217.0", 217)] "230.0" = some 230 :=
    lookupDict_cons_self ("230.0", (230 : ℚ)) _
  have c1 : lookupDiff [("U1", (13 : ℚ))] |(217 : ℚ) - 230| = ["U1"] := by
    norm_num [lookupDiff, sortedBounds, firstDedup, firstDedupAux, bound, diffMapping,
      bisectRight, scanLeft, scanRight, diffTol, relLower, List.insertionSort,
      List.orderedInsert, List.filter_cons, List.filter_nil, List.countP_cons,
      List.countP_nil, Prod.ext_iff, abs_neg, abs_of_nonneg]
  have c2 : isDuplicate [(230 : ℚ)] 217 = false := by
    norm_num [isDuplicate, isSameMolecule, abs_neg, abs_of_nonneg]
  have c3 : goalTest 217 217 = true := by norm_num [goalTest]
  have hk1 : stKids ⟨217, 2, [("230.0", 230), ("217.0", 217)], [("U1", 13)]⟩
      ⟨"230.0", 0, [], [], []⟩ 230 = [] := by
    simp only [stKids, kidsOf, candsOf, postUsedN, postUsedM, insertNew, h1,
      List.filter_cons, List.filter_nil, admitB, stepFor, c1, c2, c3, h2, h0]
    simp [c1, c2, c3]
  have he1 : stEmits ⟨217, 2, [("230.0", 230), ("217.0", 217)], [("U1", 13)]⟩
      ⟨"230.0", 0, [], [], []⟩ 230 = [[⟨"230.0", "217.0", ["U1"]⟩]] := by
    simp only [stEmits, emitsOf, candsOf, postUsedN, postUsedM, insertNew, h1,
      List.filter_cons, List.filter_nil, admitB, stepFor, c1, c2, c3, h2, h0]
    simp [c1, c2, c3]
  rw [findMatches, searchLoop_cons_found _ 4 _ _ _ 230 (by norm_num) e1, hk1, he1]
  rfl

/-- Witness for the amended C5: a run over sign-free central keys, where
the two base extractions agree, produces a path with pairwise-distinct
base weights including the start. -/
theorem c5_base_weight_exclusion_witness :
    ((("230.0" : String) :: [Step.mk "230.0" "217.0" ["U1"]].map Step.target).map
      candidateBase).Nodup :=
  c5_base_weight_exclusion ⟨217, 2, [("230.0", 230), ("217.0", 217)], [("U1", 13)]⟩
    "230.0" 5 _ (by decide) run_c5w [Step.mk "230.0" "217.0" ["U1"]]
    (List.mem_singleton.mpr rfl)

/-! Section: C6: the duplicate-molecule invariant along a path -/

/-- C6, amended. When node keys are unique, for every emitted path
and every earlier node `a` and later node `b` on it (the start node
followed by the step targets, in order), the masses satisfy
`|mass(b) - mass(a)| / mass(b) * 1e6 ≥ 10` — separation holds at 10 ppm
relative to the LATER node's mass (the candidate-side argument of
`is_same_molecule`), not symmetrically. -/
theorem c6_mass_separation (cfg : Cfg) (startKey : String) (fuel : Nat)
    (rs : List RPath) (hnd : (cfg.nodes.map Prod.fst).Nodup)
    (hrun : findMatches cfg startKey fuel = Except.ok rs) :
    ∀ p ∈ rs, List.Pairwise
      (fun a b => ∀ wa wb, lookupDict cfg.nodes a = some wa →
        lookupDict cfg.nodes b = some wb → ¬(|wb - wa| / wb * 1000000 < 10))
      (startKey :: p.map Step.target) := by
  refine searchLoop_inv cfg
    (fun st =>
      (keyChain startKey st.path).getLast? = some st.key ∧
      (∀ x, x ∈ st.usedMols ↔
        ∃ k ∈ (keyChain startKey st.path).dropLast, lookupDict cfg.nodes k = some x) ∧
      List.Pairwise
        (fun a b => ∀ wa wb, lookupDict cfg.nodes a = some wa →
          lookupDict cfg.nodes b = some wb → ¬(|wb - wa| / wb * 1000000 < 10))
        (keyChain startKey st.path))
    (fun p =>
      List.Pairwise
        (fun a b => ∀ wa wb, lookupDict cfg.nodes a = some wa →
          lookupDict cfg.nodes b = some wb → ¬(|wb - wa| / wb * 1000000 < 10))
        (keyChain startKey p))
    ?_ fuel _ _ rs ?_ ?_ hrun
  · intro st w hQ _ hlk
    rcases hQ with ⟨hA, hU, hP⟩
    have hdec := chain_decomp startKey st.path st.key hA
    have hmass_all : ∀ a ∈ keyChain startKey st.path, ∀ wa,
        lookupDict cfg.nodes a = some wa → wa ∈ postUsedM w st := by
      intro a ha wa hwa
      rw [hdec] at ha
      rcases List.mem_append.mp ha with ha' | ha'
      · exact (mem_insertNew _ _ _).mpr (Or.inr ((hU wa).mpr ⟨a, ha', hwa⟩))
      · rcases List.mem_singleton.mp ha' with rfl
        have : wa = w := Option.some.inj ((hwa.symm).trans hlk)
        exact (mem_insertNew _ _ _).mpr (Or.inl this)
    have hPnew : ∀ c ∈ candsOf cfg st, admitB cfg w (postUsedM w st) c = true →
        List.Pairwise
          (fun a b => ∀ wa wb, lookupDict cfg.nodes a = some wa →
            lookupDict cfg.nodes b = some wb → ¬(|wb - wa| / wb * 1000000 < 10))
          (keyChain startKey st.path ++ [c.1]) := by
      intro c hc hadm
      refine List.pairwise_append.mpr ⟨hP, ?_, ?_⟩
      · exact List.Pairwise.cons (fun b hb => absurd hb (List.not_mem_nil _))
          List.Pairwise.nil
      · intro a ha b hb
        rcases List.mem_singleton.mp hb with rfl
        intro wa wb hwa hwb
        have hc2 : lookupDict cfg.nodes c.1 = some c.2 :=
          lookupDict_of_mem_nodup cfg.nodes c.1 c.2 hnd
            (show ((c.1, c.2) : String × ℚ) ∈ cfg.nodes from
              (by rw [show ((c.1, c.2) : String × ℚ) = c from rfl]
                  exact candsOf_subset cfg st hc))
        have hwbc : wb = c.2 := Option.some.inj ((hwb.symm).trans hc2)
        rw [hwbc]
        exact admitB_not_dup cfg w (postUsedM w st) c hadm wa (hmass_all a ha wa hwa)
    constructor
    · intro s hs
      rcases (mem_stKids cfg st w s).mp hs with ⟨c, hc, hadm, _, _, rfl⟩
      refine ⟨?_, ?_, ?_⟩
      · rw [keyChain_concat, List.getLast?_concat]
        rfl
      · intro x
        rw [keyChain_concat, List.dropLast_concat]
        simp only [postUsedM]
        rw [mem_insertNew]
        constructor
        · rintro (rfl | hx)
          · exact ⟨st.key,
              by rw [hdec]; exact List.mem_append_right _ (List.mem_singleton.mpr rfl), hlk⟩
          · rcases (hU x).mp hx with ⟨k, hk, hkx⟩
            exact ⟨k, (List.dropLast_sublist _).subset hk, hkx⟩
        · rintro ⟨k, hk, hkx⟩
          rw [hdec] at hk
          rcases List.mem_append.mp hk with hk' | hk'
          · exact Or.inr ((hU x).mpr ⟨k, hk', hkx⟩)
          · rcases List.mem_singleton.mp hk' with rfl
            exact Or.inl (Option.some.inj ((hlk.symm).trans hkx)).symm
      · rw [keyChain_concat]
        exact hPnew c hc hadm
    · intro p hp
      rcases (mem_stEmits cfg st w p).mp hp with ⟨c, hc, hadm, _, rfl⟩
      rw [keyChain_concat]
      exact hPnew c hc hadm
  · intro s hs
    rcases List.mem_singleton.mp hs with rfl
    refine ⟨rfl, ?_, ?_⟩
    · intro x
      simp [keyChain]
    · exact List.Pairwise.cons (fun b hb => absurd hb (List.not_mem_nil _))
        List.Pairwise.nil
  · intro p hp
    exact absurd hp (List.not_mem_nil _)

/-- The complete search run of the C6 counterexample. -/
lemma run_c6 :
    findMatches ⟨200000, 1, [("200002.0", 200002), ("200000.0", 200000)], [("V1", 2)]⟩
        "200002.0" 5 =
      Except.ok [[⟨"200002.0", "200000.0", ["V1"]⟩]] := by
  have h0 : candidateBase "200002.0" = "200002.0" := by decide
  have h2 : candidateBase "200000.0" = "200000.0" := by decide
  have h1 : currentBase "200002.0" = "200002.0" := by decide
  have e1 : lookupDict [("200002.0", (200002 : ℚ)), ("200000.0", 200000)] "200002.0" =
      some 200002 := lookupDict_cons_self ("200002.0", (200002 : ℚ)) _
  have c1 : lookupDiff [("V1", (2 : ℚ))] |(200000 : ℚ) - 200002| = ["V1"] := by
    norm_num [lookupDiff, sortedBounds, firstDedup, firstDedupAux, bound, diffMapping,
      bisectRight, scanLeft, scanRight, diffTol, relLower, List.insertionSort,
      List.orderedInsert, List.filter_cons, List.filter_nil, List.countP_cons,
      List.countP_nil, Prod.ext_iff, abs_neg, abs_of_nonneg]
  have c2 : isDuplicate [(200002 : ℚ)] 200000 = false := by
    norm_num [isDuplicate, isSameMolecule, abs_neg, abs_of_nonneg]
  have c3 : goalTest 200000 200000 = true := by norm_num [goalTest]
  have hk1 : stKids ⟨200000, 1, [("200002.0", 200002), ("200000.0", 200000)], [("V1", 2)]⟩
      ⟨"200002.0", 0, [], [], []⟩ 200002 = [] := by
    simp only [stKids, kidsOf, candsOf, postUsedN, postUsedM, insertNew, h1,
      List.filter_cons, List.filter_nil, admitB, stepFor, c1, c2, c3, h2, h0]
    simp [c1, c2, c3]
  have he1 : stEmits ⟨200000, 1, [("200002.0", 200002), ("200000.0", 200000)], [("V1", 2)]⟩
      ⟨"200002.0", 0, [], [], []⟩ 200002 = [[⟨"200002.0", "200000.0", ["V1"]⟩]] := by
    simp only [stEmits, emitsOf, candsOf, postUsedN, postUsedM, insertNew, h1,
      List.filter_cons, List.filter_nil, admitB, stepFor, c1, c2, c3, h2, h0]
    simp [c1, c2, c3]
  rw [findMatches, searchLoop_cons_found _ 4 _ _ _ 200002 (by norm_num) e1, hk1, he1]
  rfl

/-- Counterexample to C6.  The run emits a path whose two nodes have
masses `200002` (start) and `200000` (target); these are within 10 ppm of
each other — `|200000 - 200002| / 200002 * 1e6 = 9.9999 < 10`, i.e.
within the duplicate tolerance relative to the start node's mass — yet the
path is emitted, because the code only tests the tolerance relative to the
candidate's mass (`2 / 200000 * 1e6 = 10`, not `< 10`). -/
theorem c6_counterexample :
    findMatches ⟨200000, 1, [("200002.0", 200002), ("200000.0", 200000)], [("V1", 2)]⟩
        "200002.0" 5 =
      Except.ok [[⟨"200002.0", "200000.0", ["V1"]⟩]] ∧
    lookupDict [("200002.0", (200002 : ℚ)), ("200000.0", 200000)] "200002.0" =
      some 200002 ∧
    lookupDict [("200002.0", (200002 : ℚ)), ("200000.0", 200000)] "200000.0" =
      some 200000 ∧
    |(200000 : ℚ) - 200002| / 200002 * 1000000 < 10 := by
  refine ⟨run_c6, lookupDict_cons_self ("200002.0", (200002 : ℚ)) _, ?_, by norm_num⟩
  simp [lookupDict, List.find?]

/-- A complete concrete run used by the C6 witness. -/
lemma run_c6w :
    findMatches ⟨150, 2, [("172.0", 172), ("150.0", 150)], [("W1", 22)]⟩ "172.0" 5 =
      Except.ok [[⟨"172.0", "150.0", ["W1"]⟩]] := by
  have h0 : candidateBase "172.0" = "172.0" := by decide
  have h2 : candidateBase "150.0" = "150.0" := by decide
  have h1 : currentBase "172.0" = "172.0" := by decide
  have e1 : lookupDict [("172.0", (172 : ℚ)), ("150.0", 150)] "172.0" = some 172 :=
    lookupDict_cons_self ("172.0", (172 : ℚ)) _
  have c1 : lookupDiff [("W1", (22 : ℚ))] |(150 : ℚ) - 172| = ["W1"] := by
    norm_num [lookupDiff, sortedBounds, firstDedup, firstDedupAux, bound, diffMapping,
      bisectRight, scanLeft, scanRight, diffTol, relLower, List.insertionSort,
      List.orderedInsert, List.filter_cons, List.filter_nil, List.countP_cons,
      List.countP_nil, Prod.ext_iff, abs_neg, abs_of_nonneg]
  have c2 : isDuplicate [(172 : ℚ)] 150 = false := by
    norm_num [isDuplicate, isSameMolecule, abs_neg, abs_of_nonneg]
  have c3 : goalTest 150 150 = true := by norm_num [goalTest]
  have hk1 : stKids ⟨150, 2, [("172.0", 172), ("150.0", 150)], [("W1", 22)]⟩
      ⟨"172.0", 0, [], [], []⟩ 172 = [] := by
    simp only [stKids, kidsOf, candsOf, postUsedN, postUsedM, insertNew, h1,
      List.filter_cons, List.filter_nil, admitB, stepFor, c1, c2, c3, h2, h0]
    simp [c1, c2, c3]
  have he1 : stEmits ⟨150, 2, [("172.0", 172), ("150.0", 150)], [("W1", 22)]⟩
      ⟨"172.0", 0, [], [], []⟩ 172 = [[⟨"172.0", "150.0", ["W1"]⟩]] := by
    simp only [stEmits, emitsOf, candsOf, postUsedN, postUsedM, insertNew, h1,
      List.filter_cons, List.filter_nil, admitB, stepFor, c1, c2, c3, h2, h0]
    simp [c1, c2, c3]
  rw [findMatches, searchLoop_cons_found _ 4 _ _ _ 172 (by norm_num) e1, hk1, he1]
  rfl

/-- Witness for the amended C6: the nodes of the emitted path of a
concrete run are pairwise separated by at least 10 ppm relative to the
later node's mass. -/
theorem c6_mass_separation_witness :
    List.Pairwise
      (fun a b => ∀ wa wb,
        lookupDict [(("172.0" : String), (172 : ℚ)), ("150.0", 150)] a = some wa →
        lookupDict [(("172.0" : String), (172 : ℚ)), ("150.0", 150)] b = some wb →
        ¬(|wb - wa| / wb * 1000000 < 10))
      ("172.0" :: [Step.mk "172.0" "150.0" ["W1"]].map Step.target) :=
  c6_mass_separation ⟨150, 2, [("172.0", 172), ("150.0", 150)], [("W1", 22)]⟩
    "172.0" 5 _ (by decide) run_c6w [Step.mk "172.0" "150.0" ["W1"]]
    (List.mem_singleton.mpr rfl)

/-! Section: C4: breadth-first order -/

lemma queue_step_inv (st : SState) (rest kids : List SState)
    (hs : List.Pairwise (fun s t => s.depth ≤ t.depth) (st :: rest))
    (hb : ∀ s ∈ st :: rest, ∀ t ∈ st :: rest, s.depth ≤ t.depth + 1)
    (hk : ∀ s ∈ kids, s.depth = st.depth + 1) :
    List.Pairwise (fun s t => s.depth ≤ t.depth) (rest ++ kids) ∧
    (∀ s ∈ rest ++ kids, ∀ t ∈ rest ++ kids, s.depth ≤ t.depth + 1) := by
  rcases List.pairwise_cons.mp hs with ⟨hhead, hrest⟩
  constructor
  · refine List.pairwise_append.mpr ⟨hrest, ?_, ?_⟩
    · refine pairwise_of_mem kids ?_
      intro a ha b hbm
      rw [hk a ha, hk b hbm]
    · intro a ha b hbm
      rw [hk b hbm]
      exact hb a (List.mem_cons_of_mem _ ha) st (List.mem_cons_self _ _)
  · intro a ha b hbm
    rcases List.mem_append.mp ha with ha' | ha' <;>
      rcases List.mem_append.mp hbm with hb' | hb'
    · exact hb a (List.mem_cons_of_mem _ ha') b (List.mem_cons_of_mem _ hb')
    · rw [hk b hb']
      exact le_trans (hb a (List.mem_cons_of_mem _ ha') st (List.mem_cons_self _ _))
        (Nat.le_succ _)
    · rw [hk a ha']
      exact Nat.succ_le_succ (hhead b hb')
    · rw [hk a ha', hk b hb']
      exact Nat.le_succ _

lemma stKids_depth (cfg : Cfg) (st : SState) (w : ℚ) :
    ∀ s ∈ stKids cfg st w, s.depth = st.depth + 1 := by
  intro s hs
  rcases (mem_stKids cfg st w s).mp hs with ⟨c, _, _, _, _, rfl⟩
  rfl

lemma stKids_path_length (cfg : Cfg) (st : SState) (w : ℚ)
    (hl : st.path.length = st.depth) :
    ∀ s ∈ stKids cfg st w, s.path.length = s.depth := by
  intro s hs
  rcases (mem_stKids cfg st w s).mp hs with ⟨c, _, _, _, _, rfl⟩
  simp [hl]

lemma stEmits_length (cfg : Cfg) (st : SState) (w : ℚ)
    (hl : st.path.length = st.depth) :
    ∀ p ∈ stEmits cfg st w, p.length = st.depth + 1 := by
  intro p hp
  rcases (mem_stEmits cfg st w p).mp hp with ⟨c, _, _, _, rfl⟩
  simp [hl]

lemma searchLoop_results_sorted (cfg : Cfg) :
    ∀ (fuel : Nat) (q : List SState) (r : List RPath) (rs : List RPath),
      List.Pairwise (fun s t => s.depth ≤ t.depth) q →
      (∀ s ∈ q, ∀ t ∈ q, s.depth ≤ t.depth + 1) →
      (∀ s ∈ q, s.path.length = s.depth) →
      List.Pairwise (fun a b => a ≤ b) (r.map List.length) →
      (∀ p ∈ r, ∀ s ∈ q, p.length ≤ s.depth + 1) →
      searchLoop cfg fuel q r = Except.ok rs →
      List.Pairwise (fun a b => a ≤ b) (rs.map List.length) := by
  intro fuel
  induction fuel with
  | zero =>
    intro q r rs _ _ _ hr _ hrun
    simp only [searchLoop, Except.ok.injEq] at hrun
    subst hrun; exact hr
  | succ n ih =>
    intro q r rs hsort hbnd hlen hr hE hrun
    match q with
    | [] =>
      simp only [searchLoop, Except.ok.injEq] at hrun
      subst hrun; exact hr
    | st :: rest =>
      rcases List.pairwise_cons.mp hsort with ⟨hhead, hrest⟩
      by_cases hdep : cfg.maxD ≤ st.depth
      · rw [searchLoop_cons_discard cfg n st rest r hdep] at hrun
        refine ih rest r rs hrest ?_ ?_ hr ?_ hrun
        · intro s hs t ht
          exact hbnd s (List.mem_cons_of_mem _ hs) t (List.mem_cons_of_mem _ ht)
        · intro s hs
          exact hlen s (List.mem_cons_of_mem _ hs)
        · intro p hp s hs
          exact hE p hp s (List.mem_cons_of_mem _ hs)
      · have hdep' : st.depth < cfg.maxD := lt_of_not_le hdep
        cases hlk : lookupDict cfg.nodes st.key with
        | none =>
          rw [searchLoop_cons_error cfg n st rest r hdep' hlk] at hrun
          exact absurd hrun (by simp)
        | some w =>
          rw [searchLoop_cons_found cfg n st rest r w hdep' hlk] at hrun
          have hstlen := hlen st (List.mem_cons_self _ _)
          have hkd := stKids_depth cfg st w
          have hel := stEmits_length cfg st w hstlen
          rcases queue_step_inv st rest (stKids cfg st w) hsort hbnd hkd with ⟨hsort', hbnd'⟩
          refine ih _ _ rs hsort' hbnd' ?_ ?_ ?_ hrun
          · intro s hs
            rcases List.mem_append.mp hs with hs' | hs'
            · exact hlen s (List.mem_cons_of_mem _ hs')
            · exact stKids_path_length cfg st w hstlen s hs'
          · rw [List.map_append]
            refine List.pairwise_append.mpr ⟨hr, ?_, ?_⟩
            · refine pairwise_of_mem _ ?_
              intro a ha b hbm
              rcases List.mem_map.mp ha with ⟨p, hp, rfl⟩
              rcases List.mem_map.mp hbm with ⟨p', hp', rfl⟩
              rw [hel p hp, hel p' hp']
            · intro a ha b hbm
              rcases List.mem_map.mp ha with ⟨p, hp, rfl⟩
              rcases List.mem_map.mp hbm with ⟨p', hp', rfl⟩
              rw [hel p' hp']
              exact hE p hp st (List.mem_cons_self _ _)
          · intro p hp s hs
            rcases List.mem_append.mp hp with hp' | hp' <;>
              rcases List.mem_append.mp hs with hs' | hs'
            · exact hE p hp' s (List.mem_cons_of_mem _ hs')
            · rw [hkd s hs']
              exact le_trans (hE p hp' st (List.mem_cons_self _ _)) (Nat.le_succ _)
            · rw [hel p hp']
              exact Nat.succ_le_succ (hhead s hs')
            · rw [hel p hp', hkd s hs']
              exact Nat.le_succ _

lemma searchLoopTrace_zero (cfg : Cfg) (q : List SState) :
    searchLoopTrace cfg 0 q = [] := rfl

lemma searchLoopTrace_nil (cfg : Cfg) (n : Nat) :
    searchLoopTrace cfg (n + 1) [] = [] := rfl

lemma searchLoopTrace_cons_discard (cfg : Cfg) (n : Nat) (st : SState)
    (rest : List SState) (h : cfg.maxD ≤ st.depth) :
    searchLoopTrace cfg (n + 1) (st :: rest) = st.depth :: searchLoopTrace cfg n rest := by
  rw [searchLoopTrace, expandState_depth_ge cfg st rest [] h]

lemma searchLoopTrace_cons_error (cfg : Cfg) (n : Nat) (st : SState)
    (rest : List SState) (h : st.depth < cfg.maxD)
    (hk : lookupDict cfg.nodes st.key = none) :
    searchLoopTrace cfg (n + 1) (st :: rest) = [st.depth] := by
  rw [searchLoopTrace, expandState_keyError cfg st rest [] h hk]

lemma searchLoopTrace_cons_found (cfg : Cfg) (n : Nat) (st : SState)
    (rest : List SState) (w : ℚ) (h : st.depth < cfg.maxD)
    (hw : lookupDict cfg.nodes st.key = some w) :
    searchLoopTrace cfg (n + 1) (st :: rest) =
      st.depth :: searchLoopTrace cfg n (rest ++ stKids cfg st w) := by
  rw [searchLoopTrace, expandState_found cfg st rest [] w h hw]

lemma searchLoopTrace_ge (cfg : Cfg) :
    ∀ (fuel : Nat) (q : List SState) (d0 : Nat),
      (∀ s ∈ q, d0 ≤ s.depth) →
      List.Pairwise (fun s t => s.depth ≤ t.depth) q →
      (∀ s ∈ q, ∀ t ∈ q, s.depth ≤ t.depth + 1) →
      ∀ x ∈ searchLoopTrace cfg fuel q, d0 ≤ x := by
  intro fuel
  induction fuel with
  | zero => intro q d0 _ _ _ x hx; exact absurd hx (List.not_mem_nil _)
  | succ n ih =>
    intro q d0 hd hsort hbnd x hx
    match q with
    | [] => exact absurd hx (List.not_mem_nil _)
    | st :: rest =>
      rcases List.pairwise_cons.mp hsort with ⟨hhead, hrest⟩
      have hrestd : ∀ s ∈ rest, d0 ≤ s.depth :=
        fun s hs => hd s (List.mem_cons_of_mem _ hs)
      have hrestb : ∀ s ∈ rest, ∀ t ∈ rest, s.depth ≤ t.depth + 1 :=
        fun s hs t ht => hbnd s (List.mem_cons_of_mem _ hs) t (List.mem_cons_of_mem _ ht)
      by_cases hdep : cfg.maxD ≤ st.depth
      · rw [searchLoopTrace_cons_discard cfg n st rest hdep] at hx
        rcases List.mem_cons.mp hx with rfl | hx'
        · exact hd st (List.mem_cons_self _ _)
        · exact ih rest d0 hrestd hrest hrestb x hx'
      · have hdep' : st.depth < cfg.maxD := lt_of_not_le hdep
        cases hlk : lookupDict cfg.nodes st.key with
        | none =>
          rw [searchLoopTrace_cons_error cfg n st rest hdep' hlk] at hx
          rcases List.mem_singleton.mp hx with rfl
          exact hd st (List.mem_cons_self _ _)
        | some w =>
          rw [searchLoopTrace_cons_found cfg n st rest w hdep' hlk] at hx
          rcases List.mem_cons.mp hx with rfl | hx'
          · exact hd st (List.mem_cons_self _ _)
          · rcases queue_step_inv st rest (stKids cfg st w) hsort hbnd
              (stKids_depth cfg st w) with ⟨hsort', hbnd'⟩
            refine ih _ d0 ?_ hsort' hbnd' x hx'
            intro s hs
            rcases List.mem_append.mp hs with hs' | hs'
            · exact hrestd s hs'
            · rw [stKids_depth cfg st w s hs']
              exact le_trans (hd st (List.mem_cons_self _ _)) (Nat.le_succ _)

lemma searchLoopTrace_sorted (cfg : Cfg) :
    ∀ (fuel : Nat) (q : List SState),
      List.Pairwise (fun s t => s.depth ≤ t.depth) q →
      (∀ s ∈ q, ∀ t ∈ q, s.depth ≤ t.depth + 1) →
      List.Pairwise (fun a b => a ≤ b) (searchLoopTrace cfg fuel q) := by
  intro fuel
  induction fuel with
  | zero => intro q _ _; exact List.Pairwise.nil
  | succ n ih =>
    intro q hsort hbnd
    match q with
    | [] => exact List.Pairwise.nil
    | st :: rest =>
      rcases List.pairwise_cons.mp hsort with ⟨hhead, hrest⟩
      have hrestb : ∀ s ∈ rest, ∀ t ∈ rest, s.depth ≤ t.depth + 1 :=
        fun s hs t ht => hbnd s (List.mem_cons_of_mem _ hs) t (List.mem_cons_of_mem _ ht)
      by_cases hdep : cfg.maxD ≤ st.depth
      · rw [searchLoopTrace_cons_discard cfg n st rest hdep]
        refine List.Pairwise.cons ?_ (ih rest hrest hrestb)
        exact searchLoopTrace_ge cfg n rest st.depth (fun s hs => hhead s hs) hrest hrestb
      · have hdep' : st.depth < cfg.maxD := lt_of_not_le hdep
        cases hlk : lookupDict cfg.nodes st.key with
        | none =>
          rw [searchLoopTrace_cons_error cfg n st rest hdep' hlk]
          exact List.Pairwise.cons (fun b hb => absurd hb (List.not_mem_nil _))
            List.Pairwise.nil
        | some w =>
          rw [searchLoopTrace_cons_found cfg n st rest w hdep' hlk]
          rcases queue_step_inv st rest (stKids cfg st w) hsort hbnd
            (stKids_depth cfg st w) with ⟨hsort', hbnd'⟩
          refine List.Pairwise.cons ?_ (ih _ hsort' hbnd')
          refine searchLoopTrace_ge cfg n _ st.depth ?_ hsort' hbnd'
          intro s hs
          rcases List.mem_append.mp hs with hs' | hs'
          · exact hhead s hs'
          · rw [stKids_depth cfg st w s hs']
            exact Nat.le_succ _

/-- C4. Breadth-first order: (1) every child enqueued by an expansion
has depth exactly one greater than its parent; (2) the dequeue trace of a
run is non-decreasing in depth — all states of depth `d` are dequeued
before any state of depth `d+1`; (3) the result collection of a completed
run is in non-decreasing order of path length. -/
theorem c4_breadth_first :
    (∀ (cfg : Cfg) (st : SState) (w : ℚ) (s : SState),
        s ∈ stKids cfg st w → s.depth = st.depth + 1) ∧
    (∀ (cfg : Cfg) (startKey : String) (fuel : Nat),
        List.Pairwise (fun a b => a ≤ b) (findMatchesTrace cfg startKey fuel)) ∧
    (∀ (cfg : Cfg) (startKey : String) (fuel : Nat) (rs : List RPath),
        findMatches cfg startKey fuel = Except.ok rs →
        List.Pairwise (fun a b => a ≤ b) (rs.map List.length)) := by
  refine ⟨stKids_depth, ?_, ?_⟩
  · intro cfg startKey fuel
    refine searchLoopTrace_sorted cfg fuel [⟨startKey, 0, [], [], []⟩] ?_ ?_
    · exact List.Pairwise.cons (fun b hb => absurd hb (List.not_mem_nil _))
        List.Pairwise.nil
    · intro s hs t ht
      rcases List.mem_singleton.mp hs with rfl
      rcases List.mem_singleton.mp ht with rfl
      exact Nat.le_succ _
  · intro cfg startKey fuel rs hrun
    refine searchLoop_results_sorted cfg fuel [⟨startKey, 0, [], [], []⟩] [] rs ?_ ?_ ?_
      List.Pairwise.nil ?_ hrun
    · exact List.Pairwise.cons (fun b hb => absurd hb (List.not_mem_nil _))
        List.Pairwise.nil
    · intro s hs t ht
      rcases List.mem_singleton.mp hs with rfl
      rcases List.mem_singleton.mp ht with rfl
      exact Nat.le_succ _
    · intro s hs
      rcases List.mem_singleton.mp hs with rfl
      rfl
    · intro p hp
      exact absurd hp (List.not_mem_nil _)

/-- The child list of the first expansion of the C4 witness run. -/
lemma kids_c4w :
    stKids ⟨140, 3, [("200.0", 200), ("170.0", 170), ("155.0", 155), ("140.0", 140)],
        [("S1", 30), ("S2", 60)]⟩ ⟨"200.0", 0, [], [], []⟩ 200 =
      [⟨"170.0", 1, [⟨"200.0", "170.0", ["S1"]⟩], ["200.0"], [200]⟩] := by
  have b1 : candidateBase "200.0" = "200.0" := by decide
  have b2 : candidateBase "170.0" = "170.0" := by decide
  have b3 : candidateBase "155.0" = "155.0" := by decide
  have b4 : candidateBase "140.0" = "140.0" := by decide
  have u1 : currentBase "200.0" = "200.0" := by decide
  have l1 : lookupDiff [("S1", (30 : ℚ)), ("S2", 60)] |(170 : ℚ) - 200| = ["S1"] := by
    norm_num [lookupDiff, sortedBounds, firstDedup, firstDedupAux, bound, diffMapping,
      bisectRight, scanLeft, scanRight, diffTol, relLower, List.insertionSort,
      List.orderedInsert, List.filter_cons, List.filter_nil, List.countP_cons,
      List.countP_nil, Prod.ext_iff, abs_neg, abs_of_nonneg]
  have l2 : lookupDiff [("S1", (30 : ℚ)), ("S2", 60)] |(155 : ℚ) - 200| = [] := by
    norm_num [lookupDiff, sortedBounds, firstDedup, firstDedupAux, bound, diffMapping,
      bisectRight, scanLeft, scanRight, diffTol, relLower, List.insertionSort,
      List.orderedInsert, List.filter_cons, List.filter_nil, List.countP_cons,
      List.countP_nil, Prod.ext_iff, abs_neg, abs_of_nonneg]
  have l3 : lookupDiff [("S1", (30 : ℚ)), ("S2", 60)] |(140 : ℚ) - 200| = ["S2"] := by
    norm_num [lookupDiff, sortedBounds, firstDedup, firstDedupAux, bound, diffMapping,
      bisectRight, scanLeft, scanRight, diffTol, relLower, List.insertionSort,
      List.orderedInsert, List.filter_cons, List.filter_nil, List.countP_cons,
      List.countP_nil, Prod.ext_iff, abs_neg, abs_of_nonneg]
  have d1 : isDuplicate [(200 : ℚ)] 170 = false := by
    norm_num [isDuplicate, isSameMolecule, abs_neg, abs_of_nonneg]
  have d2 : isDuplicate [(200 : ℚ)] 155 = false := by
    norm_num [isDuplicate, isSameMolecule, abs_neg, abs_of_nonneg]
  have d3 : isDuplicate [(200 : ℚ)] 140 = false := by
    norm_num [isDuplicate, isSameMolecule, abs_neg, abs_of_nonneg]
  have g1 : goalTest 140 170 = false := by norm_num [goalTest]
  have g2 : goalTest 140 140 = true := by norm_num [goalTest]
  simp only [stKids, kidsOf, candsOf, postUsedN, postUsedM, insertNew, u1,
    List.filter_cons, List.filter_nil, admitB, stepFor, b1, b2, b3, b4, l1, l2, l3,
    d1, d2, d3, g1, g2]
  simp [l1, l2, l3, d1, d2, d3, g1, g2]

/-- A complete concrete two-layer run used by the C4 witness: it emits a
one-step path while expanding depth 0 and a two-step path while expanding
depth 1. -/
lemma run_c4w :
    findMatches ⟨140, 3, [("200.0", 200), ("170.0", 170), ("155.0", 155), ("140.0", 140)],
        [("S1", 30), ("S2", 60)]⟩ "200.0" 6 =
      Except.ok [[⟨"200.0", "140.0", ["S2"]⟩],
        [⟨"200.0", "170.0", ["S1"]⟩, ⟨"170.0", "140.0", ["S1"]⟩]] := by
  have b1 : candidateBase "200.0" = "200.0" := by decide
  have b2 : candidateBase "170.0" = "170.0" := by decide
  have b3 : candidateBase "155.0" = "155.0" := by decide
  have b4 : candidateBase "140.0" = "140.0" := by decide
  have u1 : currentBase "200.0" = "200.0" := by decide
  have u2 : currentBase "170.0" = "170.0" := by decide
  have l1 : lookupDiff [("S1", (30 : ℚ)), ("S2", 60)] |(170 : ℚ) - 200| = ["S1"] := by
    norm_num [lookupDiff, sortedBounds, firstDedup, firstDedupAux, bound, diffMapping,
      bisectRight, scanLeft, scanRight, diffTol, relLower, List.insertionSort,
      List.orderedInsert, List.filter_cons, List.filter_nil, List.countP_cons,
      List.countP_nil, Prod.ext_iff, abs_neg, abs_of_nonneg]
  have l3 : lookupDiff [("S1", (30 : ℚ)), ("S2", 60)] |(140 : ℚ) - 200| = ["S2"] := by
    norm_num [lookupDiff, sortedBounds, firstDedup, firstDedupAux, bound, diffMapping,
      bisectRight, scanLeft, scanRight, diffTol, relLower, List.insertionSort,
      List.orderedInsert, List.filter_cons, List.filter_nil, List.countP_cons,
      List.countP_nil, Prod.ext_iff, abs_neg, abs_of_nonneg]
  have he1 : stEmits ⟨140, 3, [("200.0", 200), ("170.0", 170), ("155.0", 155), ("140.0", 140)],
      [("S1", 30), ("S2", 60)]⟩ ⟨"200.0", 0, [], [], []⟩ 200 =
      [[⟨"200.0", "140.0", ["S2"]⟩]] := by
    have l2 : lookupDiff [("S1", (30 : ℚ)), ("S2", 60)] |(155 : ℚ) - 200| = [] := by
      norm_num [lookupDiff, sortedBounds, firstDedup, firstDedupAux, bound, diffMapping,
        bisectRight, scanLeft, scanRight, diffTol, relLower, List.insertionSort,
        List.orderedInsert, List.filter_cons, List.filter_nil, List.countP_cons,
        List.countP_nil, Prod.ext_iff, abs_neg, abs_of_nonneg]
    have d1 : isDuplicate [(200 : ℚ)] 170 = false := by
      norm_num [isDuplicate, isSameMolecule, abs_neg, abs_of_nonneg]
    have d2 : isDuplicate [(200 : ℚ)] 155 = false := by
      norm_num [isDuplicate, isSameMolecule, abs_neg, abs_of_nonneg]
    have d3 : isDuplicate [(200 : ℚ)] 140 = false := by
      norm_num [isDuplicate, isSameMolecule, abs_neg, abs_of_nonneg]
    have g1 : goalTest 140 170 = false := by norm_num [goalTest]
    have g2 : goalTest 140 140 = true := by norm_num [goalTest]
    simp only [stEmits, emitsOf, candsOf, postUsedN, postUsedM, insertNew, u1,
      List.filter_cons, List.filter_nil, admitB, stepFor, b1, b2, b3, b4, l1, l2, l3,
      d1, d2, d3, g1, g2]
    simp [l1, l2, l3, d1, d2, d3, g1, g2]
  have e1 : lookupDict [("200.0", (200 : ℚ)), ("170.0", 170), ("155.0", 155), ("140.0", 140)]
      "200.0" = some 200 := lookupDict_cons_self ("200.0", (200 : ℚ)) _
  have e2 : lookupDict [("200.0", (200 : ℚ)), ("170.0", 170), ("155.0", 155), ("140.0", 140)]
      "170.0" = some 170 := by simp [lookupDict, List.find?]
  have l4 : lookupDiff [("S1", (30 : ℚ)), ("S2", 60)] |(155 : ℚ) - 170| = [] := by
    norm_num [lookupDiff, sortedBounds, firstDedup, firstDedupAux, bound, diffMapping,
      bisectRight, scanLeft, scanRight, diffTol, relLower, List.insertionSort,
      List.orderedInsert, List.filter_cons, List.filter_nil, List.countP_cons,
      List.countP_nil, Prod.ext_iff, abs_neg, abs_of_nonneg]
  have l5 : lookupDiff [("S1", (30 : ℚ)), ("S2", 60)] |(140 : ℚ) - 170| = ["S1"] := by
    norm_num [lookupDiff, sortedBounds, firstDedup, firstDedupAux, bound, diffMapping,
      bisectRight, scanLeft, scanRight, diffTol, relLower, List.insertionSort,
      List.orderedInsert, List.filter_cons, List.filter_nil, List.countP_cons,
      List.countP_nil, Prod.ext_iff, abs_neg, abs_of_nonneg]
  have d4 : isDuplicate [(170 : ℚ), 200] 155 = false := by
    norm_num [isDuplicate, isSameMolecule, abs_neg, abs_of_nonneg]
  have d5 : isDuplicate [(170 : ℚ), 200] 140 = false := by
    norm_num [isDuplicate, isSameMolecule, abs_neg, abs_of_nonneg]
  have g2 : goalTest 140 140 = true := by norm_num [goalTest]
  have hk2 : stKids ⟨140, 3, [("200.0", 200), ("170.0", 170), ("155.0", 155), ("140.0", 140)],
      [("S1", 30), ("S2", 60)]⟩
      ⟨"170.0", 1, [⟨"200.0", "170.0", ["S1"]⟩], ["200.0"], [200]⟩ 170 = [] := by
    simp only [stKids, kidsOf, candsOf, postUsedN, postUsedM, insertNew, u2,
      List.filter_cons, List.filter_nil, admitB, stepFor, b1, b2, b3, b4, l4, l5,
      d4, d5, g2]
    simp [l4, l5, d4, d5, g2]
  have he2 : stEmits ⟨140, 3, [("200.0", 200), ("170.0", 170), ("155.0", 155), ("140.0", 140)],
      [("S1", 30), ("S2", 60)]⟩
      ⟨"170.0", 1, [⟨"200.0", "170.0", ["S1"]⟩], ["200.0"], [200]⟩ 170 =
      [[⟨"200.0", "170.0", ["S1"]⟩, ⟨"170.0", "140.0", ["S1"]⟩]] := by
    simp only [stEmits, emitsOf, candsOf, postUsedN, postUsedM, insertNew, u2,
      List.filter_cons, List.filter_nil, admitB, stepFor, b1, b2, b3, b4, l4, l5,
      d4, d5, g2]
    simp [l4, l5, d4, d5, g2]
  rw [findMatches, searchLoop_cons_found _ 5 _ _ _ 200 (by norm_num) e1, kids_c4w, he1]
  simp only [List.nil_append, List.append_nil]
  rw [searchLoop_cons_found _ 4 _ _ _ 170 (by norm_num) e2, hk2, he2]
  simp only [List.nil_append, List.append_nil]
  rfl

/-- Witness for C4: a concrete enqueued child of the depth-0 expansion has
depth 1, and the concrete run's result lengths `[1, 2]` are
non-decreasing. -/
theorem c4_breadth_first_witness :
    ((⟨"170.0", 1, [⟨"200.0", "170.0", ["S1"]⟩], ["200.0"], [200]⟩ : SState).depth =
      (⟨"200.0", 0, [], [], []⟩ : SState).depth + 1) ∧
    List.Pairwise (fun a b => a ≤ b)
      (([[Step.mk "200.0" "140.0" ["S2"]],
         [Step.mk "200.0" "170.0" ["S1"], Step.mk "170.0" "140.0" ["S1"]]] : List RPath).map
        List.length) := by
  constructor
  · refine c4_breadth_first.1
      ⟨140, 3, [("200.0", 200), ("170.0", 170), ("155.0", 155), ("140.0", 140)],
        [("S1", 30), ("S2", 60)]⟩ ⟨"200.0", 0, [], [], []⟩ 200 _ ?_
    rw [kids_c4w]
    exact List.mem_singleton.mpr rfl
  · exact c4_breadth_first.2.2
      ⟨140, 3, [("200.0", 200), ("170.0", 170), ("155.0", 155), ("140.0", 140)],
        [("S1", 30), ("S2", 60)]⟩ "200.0" 6 _ run_c4w

end GeMeCraP
